import Mathlib

/-!
Verification development for the fishtest worker's match-execution and
statistics subsystem (`worker/games.py`).

The Python source is shallowly embedded as executable Lean definitions:

* Python `float` arithmetic is modelled exactly over the rationals, using the
  unnormalized fraction type `PyFloat` below (numerator/denominator pairs of
  integers, denominator kept positive by construction).  Every float operation
  performed by the embedded code paths (division, multiplication, addition of
  small decimal quantities, comparison against the literal `1e-4`) is exact in
  IEEE double precision for the magnitudes that occur, so the rational model
  coincides with the Python semantics there.
* Python exceptions (`AssertionError`, `KeyError`, `IndexError`, `ValueError`,
  `ZeroDivisionError`, `sys.exit`) are modelled with `Except String`.
* Python dictionaries holding round records are modelled as association lists;
  the special keys `'pentanomial'` and `'trinomial'` of the `rounds` dict are
  modelled as two `Option (List Int)` fields (absent key = `none`).
* Python list indexing (including negative-index wrap-around) is modelled by
  `pyIndex` / `pyGet` / `pySet`.
* The network, the spawned match process and the wall clock are modelled as
  explicit oracles: the process's standard output is a list of lines (observed
  in emission order, as the source's queue guarantees), each `update_task`
  call consults an oracle `Nat → NetResponse`, and process termination is a
  boolean effect flag.  The wall-clock deadline is modelled as never expiring
  (none of the verified claims concerns deadline expiry).
-/

namespace Fishtest

/-! ## Exact model of Python float arithmetic -/

/-- Exact rational model of a Python float: an unnormalized fraction.
All constructors used below keep the denominator positive. -/
structure PyFloat where
  num : Int
  den : Int
deriving DecidableEq, Repr

def pfOfInt (n : Int) : PyFloat := ⟨n, 1⟩

/-- Build a fraction, normalizing the sign into the numerator. -/
def pfMk (n d : Int) : PyFloat := if d < 0 then ⟨-n, -d⟩ else ⟨n, d⟩

def pfAdd (a b : PyFloat) : PyFloat := ⟨a.num * b.den + b.num * a.den, a.den * b.den⟩

def pfSub (a b : PyFloat) : PyFloat := ⟨a.num * b.den - b.num * a.den, a.den * b.den⟩

def pfMul (a b : PyFloat) : PyFloat := ⟨a.num * b.num, a.den * b.den⟩

/-- Exact division; only ever used with a nonzero divisor (call sites guard). -/
def pfDiv (a b : PyFloat) : PyFloat := pfMk (a.num * b.den) (a.den * b.num)

def pfAbs (a : PyFloat) : PyFloat := ⟨|a.num|, |a.den|⟩

/-- Semantic equality of fractions (cross multiplication). -/
def pfEq (a b : PyFloat) : Prop := a.num * b.den = b.num * a.den

instance (a b : PyFloat) : Decidable (pfEq a b) := by unfold pfEq; infer_instance

/-- Strict order; valid because all constructed fractions have positive
denominators. -/
def pfLt (a b : PyFloat) : Prop := a.num * b.den < b.num * a.den

instance (a b : PyFloat) : Decidable (pfLt a b) := by unfold pfLt; infer_instance

/-- Floor of a fraction with positive denominator. -/
def pfFloor (a : PyFloat) : Int := Int.fdiv a.num a.den

/-! ## Character-list string utilities (kernel-computable) -/

def isPrefixC : List Char → List Char → Bool
  | [], _ => true
  | _ :: _, [] => false
  | a :: as, b :: bs => a = b && isPrefixC as bs

/-- Substring test: Python `needle in hay`. -/
def containsSub (needle : List Char) : List Char → Bool
  | [] => needle.isEmpty
  | a :: tl => isPrefixC needle (a :: tl) || containsSub needle tl

def containsStr (needle hay : String) : Bool := containsSub needle.data hay.data

/-- Python `str.split(sep)` for a single-character separator. -/
def splitOnCharAux (c : Char) : List Char → List Char → List (List Char)
  | [], acc => [acc.reverse]
  | a :: tl, acc =>
    if a = c then acc.reverse :: splitOnCharAux c tl []
    else splitOnCharAux c tl (a :: acc)

def splitOnChar (c : Char) (s : String) : List String :=
  (splitOnCharAux c s.data []).map List.asString

/-- Python `str.split(sep)` for a multi-character separator `c :: cs`
(fuel-driven so that the kernel can evaluate it; the fuel is the length of
the input, which always suffices). -/
def splitOnStrAux (c : Char) (cs : List Char) : Nat → List Char → List Char → List (List Char)
  | _, [], acc => [acc.reverse]
  | 0, hay, acc => [acc.reverse ++ hay]
  | fuel + 1, a :: tl, acc =>
    if a = c && isPrefixC cs tl then
      acc.reverse :: splitOnStrAux c cs fuel (tl.drop cs.length) []
    else
      splitOnStrAux c cs fuel tl (a :: acc)

def splitOnStr (sep : String) (s : String) : List String :=
  match sep.data with
  | [] => [s]
  | c :: cs => ((splitOnStrAux c cs s.data.length s.data []).map List.asString)

/-- Python `str.split()` (no argument): split on whitespace runs, dropping
empty chunks. -/
def pySplitWs (s : String) : List String :=
  ((splitOnCharAux ' ' s.data []).filter (fun l => !l.isEmpty)).map List.asString

/-- Python `str.strip()`. -/
def pyStrip (s : String) : String :=
  ((s.data.dropWhile Char.isWhitespace).reverse.dropWhile Char.isWhitespace).reverse.asString

def dropC (n : Nat) (s : String) : String := (s.data.drop n).asString

def dropRightC (n : Nat) (s : String) : String := (s.data.take (s.data.length - n)).asString

def takeC (n : Nat) (s : String) : String := (s.data.take n).asString

/-! ## Integer and float literal parsing (Python `int(...)`, `float(...)`) -/

def digitVal (c : Char) : Option Nat :=
  if '0' ≤ c ∧ c ≤ '9' then some (c.toNat - '0'.toNat) else none

def digitsToNatAux : List Char → Nat → Option Nat
  | [], acc => some acc
  | c :: tl, acc =>
    match digitVal c with
    | some d => digitsToNatAux tl (acc * 10 + d)
    | none => none

def digitsToNat (l : List Char) : Option Nat :=
  match l with
  | [] => none
  | _ => digitsToNatAux l 0

/-- Python `int(s)` on a plain decimal numeral (with optional sign and
surrounding whitespace); anything else raises `ValueError`. -/
def parseInt (s : String) : Except String Int :=
  let l := (pyStrip s).data
  match l with
  | '-' :: tl => match digitsToNat tl with
    | some n => .ok (-(n : Int))
    | none => .error "ValueError: int"
  | '+' :: tl => match digitsToNat tl with
    | some n => .ok (n : Int)
    | none => .error "ValueError: int"
  | _ => match digitsToNat l with
    | some n => .ok (n : Int)
    | none => .error "ValueError: int"

def tenPow : Nat → Int
  | 0 => 1
  | n + 1 => 10 * tenPow n

/-- Parse an unsigned decimal float literal: `digits`, `digits.digits`,
`digits.` or `.digits`. -/
def parseUFloat (l : List Char) : Option PyFloat :=
  match splitOnCharAux '.' l [] with
  | [ip] => match digitsToNat ip with
    | some n => some (pfOfInt n)
    | none => none
  | [ip, fp] =>
    if ip.isEmpty && fp.isEmpty then none
    else
      match digitsToNatAux ip 0, digitsToNatAux fp 0 with
      | some n, some f => some ⟨n * tenPow fp.length + f, tenPow fp.length⟩
      | _, _ => none
  | _ => none

/-- Python `float(s)` on a plain decimal literal (optional sign, optional
fractional part, surrounding whitespace); exponent forms, `inf` and `nan` are
outside the modelled input space and raise `ValueError`. -/
def parseFloat (s : String) : Except String PyFloat :=
  let l := (pyStrip s).data
  match l with
  | '-' :: tl => match parseUFloat tl with
    | some q => .ok ⟨-q.num, q.den⟩
    | none => .error "ValueError: float"
  | '+' :: tl => match parseUFloat tl with
    | some q => .ok q
    | none => .error "ValueError: float"
  | _ => match parseUFloat l with
    | some q => .ok q
    | none => .error "ValueError: float"

/-! ## Decimal rendering (Python `'%.3f'` and `'%d'`) -/

def natToCharsAux : Nat → Nat → List Char
  | 0, _ => []
  | fuel + 1, n =>
    if n < 10 then [Nat.digitChar n]
    else natToCharsAux fuel (n / 10) ++ [Nat.digitChar (n % 10)]

def natToStr (n : Nat) : String := (natToCharsAux (n + 1) n).asString

def intToStr (n : Int) : String :=
  if n < 0 then "-" ++ natToStr (-n).toNat else natToStr n.toNat

/-- Format a nonnegative count of thousandths as a fixed three-decimal
numeral. -/
def fmt3OfThousandths (m : Nat) : String :=
  let fracDigits := natToCharsAux (m % 1000 + 1) (m % 1000)
  natToStr (m / 1000) ++ "." ++ (List.replicate (3 - fracDigits.length) '0' ++ fracDigits).asString

/-- Python `'%.3f' % q`.  Rounds the magnitude to the nearest thousandth
(`floor(|q|*1000 + 1/2)`); exact ties, where IEEE `%.3f` would round to even,
do not occur for the modelled inputs. -/
def fmt3 (q : PyFloat) : String :=
  if pfLt q (pfOfInt 0) then
    "-" ++ fmt3OfThousandths (pfFloor (pfAdd (pfMul ⟨-q.num, q.den⟩ (pfOfInt 1000)) (pfMk 1 2))).toNat
  else
    fmt3OfThousandths (pfFloor (pfAdd (pfMul q (pfOfInt 1000)) (pfMk 1 2))).toNat

/-! ## Python list indexing -/

/-- Python sequence index resolution: negative indices count from the end;
out-of-range indices yield `none` (an `IndexError` at the call sites). -/
def pyIndex (n : Nat) (k : Int) : Option Nat :=
  let k' : Int := if k < 0 then k + n else k
  if 0 ≤ k' ∧ k' < n then some k'.toNat else none

def pyGet (l : List Int) (k : Int) : Except String Int :=
  match pyIndex l.length k with
  | some i => .ok (l.getD i 0)
  | none => .error "IndexError"

def pySet (l : List Int) (k : Int) (v : Int) : Except String (List Int) :=
  match pyIndex l.length k with
  | some i => .ok (l.set i v)
  | none => .error "IndexError"

/-- Python `l[k] += d`. -/
def pyAdd (l : List Int) (k : Int) (d : Int) : Except String (List Int) := do
  let v ← pyGet l k
  pySet l k (v + d)

def pyAtS (l : List String) (i : Nat) : Except String String :=
  if i < l.length then .ok (l.getD i "") else .error "IndexError"

/-! ## Round records and the `rounds` dictionary

Source: `worker/games.py`, `update_pentanomial` / `validate_pentanomial`.
The Python `rounds` dict maps the string keys `'pentanomial'` and
`'trinomial'` to integer lists and integer keys (round numbers) to per-round
record dicts `{'white', 'black', 'result'}`. -/

structure RoundRecord where
  white : String
  black : String
  result : Int
deriving DecidableEq, Repr

structure Rounds where
  pentanomial : Option (List Int)
  trinomial : Option (List Int)
  games : List (Int × RoundRecord)
deriving DecidableEq, Repr

def emptyRounds : Rounds := ⟨none, none, []⟩

def lookupGame (g : List (Int × RoundRecord)) (k : Int) : Option RoundRecord :=
  match g.find? (fun p => p.1 = k) with
  | some p => some p.2
  | none => none

def eraseGame (g : List (Int × RoundRecord)) (k : Int) : List (Int × RoundRecord) :=
  g.filter (fun p => p.1 ≠ k)

/-- Python dict assignment `rounds[k] = v`. -/
def insertGame (g : List (Int × RoundRecord)) (k : Int) (v : RoundRecord) :
    List (Int × RoundRecord) :=
  (k, v) :: eraseGame g k

/-- Python `rounds['trinomial']` (raises `KeyError` when absent). -/
def getTri (r : Rounds) : Except String (List Int) :=
  match r.trinomial with
  | some l => .ok l
  | none => .error "KeyError: trinomial"

/-- Python `rounds['pentanomial']` (raises `KeyError` when absent). -/
def getPent (r : Rounds) : Except String (List Int) :=
  match r.pentanomial with
  | some l => .ok l
  | none => .error "KeyError: pentanomial"

def setTri (r : Rounds) (l : List Int) : Rounds := { r with trinomial := some l }

def setPent (r : Rounds) (l : List Int) : Rounds := { r with pentanomial := some l }

/-! ## update_pentanomial (games.py lines 214-263) -/

/-- Source lines 215-223: map a result token to a White-perspective score
(`"1-0"` to 2, `"0-1"` to 0, `"1/2-1/2"` to 1, anything else to -1). -/
def result_to_score (r : String) : Int :=
  if r = "1-0" then 2
  else if r = "0-1" then 0
  else if r = "1/2-1/2" then 1
  else -1

/-- Source lines 224-227: seed the `'pentanomial'` and `'trinomial'` keys
with zero lists when absent. -/
def initRounds (r : Rounds) : Rounds :=
  { r with
    pentanomial := some (r.pentanomial.getD (List.replicate 5 0)),
    trinomial := some (r.trinomial.getD (List.replicate 3 0)) }

/-- Source line 231: `line[0]=='Finished' and line[1]=='game' and
len(line)>=7`, with Python's left-to-right evaluation (an empty token list
raises `IndexError` at `line[0]`). -/
def finishedGameCond (toks : List String) : Except String Bool :=
  match toks with
  | [] => .error "IndexError"
  | t0 :: rest =>
    if t0 = "Finished" then
      match rest with
      | [] => .error "IndexError"
      | t1 :: _ =>
        .ok (t1 = "game" && decide (toks.length ≥ 7))
    else .ok false

/-- Source lines 232-237: parse round number, store the round record
(white = `line[3][1:]`, black = `line[5][:-2]`, result score of `line[6]`),
returning the updated rounds, the round number and the score. -/
def storeRound (toks : List String) (r : Rounds) :
    Except String (Rounds × Int × Int) := do
  let t2 ← pyAtS toks 2
  let round_ ← parseInt t2
  let t3 ← pyAtS toks 3
  let t5 ← pyAtS toks 5
  let t6 ← pyAtS toks 6
  let rec_ : RoundRecord := ⟨dropC 1 t3, dropRightC 2 t5, result_to_score t6⟩
  .ok ({ r with games := insertGame r.games round_ rec_ }, round_, rec_.result)

/-- Trinomial increment at an index, skipped for unknown scores (the
`if i!=-1: rounds['trinomial'][idx]+=1` steps of source lines 239-240 and
244-245). -/
def foldTriAdd (r : Rounds) (idx : Int) (i : Int) : Except String Rounds :=
  if i ≠ -1 then do
    let tri ← getTri r
    let tri' ← pyAdd tri idx 1
    pure (setTri r tri')
  else pure r

/-- Source lines 238-247: fold a known score into the trinomial (reversed
colors for even rounds) and identify the odd/even rounds of the pair. -/
def foldTri (r : Rounds) (round_ : Int) (i : Int) :
    Except String (Rounds × Int × Int) :=
  if round_ % 2 = 0 then
    (foldTriAdd r (2 - i) i).map (fun r => (r, round_ - 1, round_))
  else
    (foldTriAdd r i i).map (fun r => (r, round_, round_ + 1))

/-- Source lines 248-261: when both rounds of the pair are present, check the
pairing-identity assertions; when both scores are known, move the pair into
the pentanomial (increment `pentanomial[i+2-j]`, delete both records,
decrement `trinomial[i]` and `trinomial[2-j]`, assert both stay
nonnegative). -/
def pairStep (r : Rounds) (odd even : Int) : Except String Rounds := do
  match lookupGame r.games odd, lookupGame r.games even with
  | some ro, some re =>
    if takeC 3 ro.white = "New" then
      if ro.white = re.black then
        if ro.black = re.white then do
          let i := ro.result
          let j := re.result
          if i ≠ -1 ∧ j ≠ -1 then do
            let pent ← getPent r
            let pent' ← pyAdd pent (i + 2 - j) 1
            let r := setPent r pent'
            let r := { r with games := eraseGame (eraseGame r.games odd) even }
            let tri ← getTri r
            let tri1 ← pyAdd tri i (-1)
            let tri2 ← pyAdd tri1 (2 - j) (-1)
            let r := setTri r tri2
            let vi ← pyGet tri2 i
            if 0 ≤ vi then do
              let vj ← pyGet tri2 (2 - j)
              if 0 ≤ vj then .ok r
              else .error "AssertionError: trinomial"
            else .error "AssertionError: trinomial"
          else .ok r
        else .error "AssertionError: pairing"
      else .error "AssertionError: pairing"
    else .error "AssertionError: pairing"
  | _, _ => .ok r

/-- Source line 262: `[rounds['pentanomial'][i] + old_stats['pentanomial'][i]
for i in range(0,5)]`. -/
def combinePent (pent oldPent : List Int) : Except String (List Int) := do
  let a0 ← pyGet pent 0
  let b0 ← pyGet oldPent 0
  let a1 ← pyGet pent 1
  let b1 ← pyGet oldPent 1
  let a2 ← pyGet pent 2
  let b2 ← pyGet oldPent 2
  let a3 ← pyGet pent 3
  let b3 ← pyGet oldPent 3
  let a4 ← pyGet pent 4
  let b4 ← pyGet oldPent 4
  .ok [a0 + b0, a1 + b1, a2 + b2, a3 + b3, a4 + b4]

/-- Source lines 232-261: the body of the `Finished game` branch — store the
round record, fold the score into the trinomial, and run the pairing step. -/
def gameLineStep (toks : List String) (r : Rounds) : Except String Rounds :=
  storeRound toks r >>= fun p =>
  foldTri p.1 p.2.1 p.2.2 >>= fun q =>
  pairStep q.1 q.2.1 q.2.2

/-- Source lines 214-263, `update_pentanomial(line, rounds)`: the whole
per-line accumulator step.  `oldPent` is `old_stats['pentanomial']`; the
returned list is the function's return value and the returned `Rounds` is the
mutated `rounds` dict. -/
def update_pentanomial (oldPent : List Int) (line : String) (r : Rounds) :
    Except String (Rounds × List Int) :=
  let r0 := initRounds r
  let toks := pySplitWs line
  finishedGameCond toks >>= fun b =>
  (if b then gameLineStep toks r0 else pure r0) >>= fun r1 =>
  getPent r1 >>= fun pent =>
  combinePent pent oldPent >>= fun out =>
  .ok (r1, out)

/-- Iterate `update_pentanomial` over a sequence of output lines (the
accumulator's evolution within one batch). -/
def processLines (oldPent : List Int) (lines : List String) (r : Rounds) :
    Except String Rounds :=
  lines.foldlM (fun r line => (update_pentanomial oldPent line r).map Prod.fst) r

/-! ## validate_pentanomial (games.py lines 265-273) -/

/-- Source lines 266-267: `sum([results[i] * (i / 2.0) for i in
range(0, len(results))])` (the index-weighted half-point score). -/
def results_to_score (l : List Int) : PyFloat :=
  go 0 l
where
  go : Nat → List Int → PyFloat
    | _, [] => pfOfInt 0
    | i, x :: tl => pfAdd (pfMul (pfOfInt x) (pfDiv (pfOfInt i) (pfOfInt 2))) (go (i + 1) tl)

/-- Source lines 265-273, `validate_pentanomial(wld, rounds)`: recompute the
score from the aggregate `(W, L, D)` counts and from the
pentanomial/trinomial state and assert consistency.  Reads
`rounds['pentanomial']` before `rounds['trinomial']` (Python evaluation
order), raising `KeyError` when a key is missing. -/
def validate_pentanomial (wld : Int × Int × Int) (r : Rounds) : Except String Unit := do
  let LDW : List Int := [wld.2.1, wld.2.2, wld.1]
  let s3 := results_to_score LDW
  let pent ← getPent r
  let tri ← getTri r
  let s5 := pfAdd (results_to_score pent) (results_to_score tri)
  if LDW.sum = 2 * pent.sum + tri.sum then
    if pfLt (pfAbs (pfSub s5 s3)) (pfMk 1 10000) then .ok ()
    else .error "AssertionError: score"
  else .error "AssertionError: count"

/-! ## adjust_tc (games.py lines 165-200)

`sys.exit(1)` is modelled as the error value `"SystemExit"`; the float
division `1600000.0 / base_nps` raises `ZeroDivisionError` in Python when
`base_nps` is zero, checked here before the division since `pfDiv` is total.
The unused `concurrency` parameter of the source is kept. -/

/-- Source lines 171-187: parse the cutechess time-control string, in source
order — increment from a two-chunk `'+'` split, moves count from a two-chunk
`'/'` split, base time in seconds or `mm:ss`.  Returns
`(increment, num_moves, time_tc)`. -/
def tcComponents (tc : String) : Except String (PyFloat × Int × PyFloat) :=
  let chunks := splitOnChar '+' tc
  (if chunks.length = 2 then parseFloat (chunks.getD 1 "")
   else pure (pfOfInt 0)) >>= fun increment =>
  let chunks2 := splitOnChar '/' (chunks.getD 0 "")
  (if chunks2.length = 2 then parseInt (chunks2.getD 0 "")
   else pure 0) >>= fun num_moves =>
  let tchunks := splitOnChar ':' (chunks2.getLastD "")
  (if tchunks.length = 2 then
    parseFloat (tchunks.getD 0 "") >>= fun m =>
    parseFloat (tchunks.getD 1 "") >>= fun s =>
    pure (pfAdd (pfMul m (pfOfInt 60)) s)
   else parseFloat (tchunks.getD 0 "")) >>= fun time_tc =>
  pure (increment, num_moves, time_tc)

/-- Source lines 189-197: rebuild the scaled time-control string and the
wall-clock limit from the parsed components and the CPU factor. -/
def scaleTc (factor increment : PyFloat) (num_moves : Int) (time_tc : PyFloat) :
    String × PyFloat :=
  let scaled_tc := fmt3 (pfMul time_tc factor)
  let tc_limit := pfMul (pfMul time_tc factor) (pfOfInt 3)
  let p :=
    if pfLt (pfOfInt 0) increment then
      (scaled_tc ++ "+" ++ fmt3 (pfMul increment factor),
       pfAdd tc_limit (pfMul (pfMul increment factor) (pfOfInt 200)))
    else (scaled_tc, tc_limit)
  if 0 < num_moves then
    (intToStr num_moves ++ "/" ++ p.1,
     pfMul p.2 (pfDiv (pfOfInt 100) (pfOfInt num_moves)))
  else p

def adjust_tc (tc : String) (base_nps : PyFloat) (_concurrency : Int) :
    Except String (String × PyFloat) :=
  if pfEq base_nps (pfOfInt 0) then .error "ZeroDivisionError"
  else if pfLt base_nps (pfOfInt 700000) then .error "SystemExit"
  else
    tcComponents tc >>= fun c =>
    pure (scaleTc (pfDiv (pfOfInt 1600000) base_nps) c.1 c.2.1 c.2.2)

/-! ## verify_signature (games.py lines 66-99)

The spawned benchmark process is modelled by its diagnostic stream (a list
of lines) and its exit code.  The side effects are recorded in the result:
the message posted to the coordinator's `/api/stop_run` endpoint (if any)
and whether the auxiliary busy engine instance was spawned and torn down.
The `try`/`finally` of the source guarantees teardown on every path, which
the model reflects by computing the teardown flag independently of the
body's outcome. -/

structure BenchResult where
  stop_posted : Option String
  busy_spawned : Bool
  busy_torn_down : Bool
  outcome : Except String PyFloat
deriving Repr

/-- Source lines 78-82: scan the diagnostic stream, keeping the last
`Nodes searched` value (as a stripped string) and the last parsed
`Nodes/second` value.  A matching line without the `': '` separator raises
`IndexError`; an unparsable `Nodes/second` value raises `ValueError`. -/
def scanBenchLines : List String → String → Option PyFloat →
    Except String (String × Option PyFloat)
  | [], sig, nps => .ok (sig, nps)
  | line :: tl, sig, nps => do
    let sig ←
      if containsStr "Nodes searched" line then do
        let t ← pyAtS (splitOnStr ": " line) 1
        pure (pyStrip t)
      else pure sig
    let nps ←
      if containsStr "Nodes/second" line then do
        let t ← pyAtS (splitOnStr ": " line) 1
        let v ← parseFloat (pyStrip t)
        pure (some v)
      else pure nps
    scanBenchLines tl sig nps

/-- Source lines 66-99, `verify_signature`: `engine` is the basename used in
the failure message, `signature` the expected value (already an integer),
`lines`/`returncode` the benchmark process's diagnostic stream and exit
status, `concurrency` the games concurrency. -/
def verify_signature (engine : String) (signature : Int) (lines : List String)
    (returncode : Int) (concurrency : Int) : BenchResult :=
  let busy := decide (concurrency > 1)
  let body : Option String × Except String PyFloat :=
    match scanBenchLines lines "" none with
    | .error e => (none, .error e)
    | .ok (bench_sig, bench_nps) =>
      if returncode ≠ 0 then (none, .error "Exception: Bench exited with non-zero code")
      else
        match parseInt bench_sig with
        | .error e => (none, .error e)
        | .ok sigv =>
          if sigv ≠ signature then
            let msg := "Wrong bench in " ++ engine
            (some msg, .error msg)
          else
            -- `return bench_nps` sits after the try/finally; an unbound
            -- `bench_nps` raises `NameError` there.
            match bench_nps with
            | some nps => (none, .ok nps)
            | none => (none, .error "NameError: bench_nps")
  { stop_posted := body.1
    busy_spawned := busy
    busy_torn_down := busy
    outcome := body.2 }

/-! ## run_game (games.py lines 276-371)

The match process's standard output is a list of lines (drained in order);
each `send_api_post_request(remote + '/api/update_task', result)` call is
answered by the oracle `net` applied to the index of the call (a raised
network/JSON exception is `NetResponse.err`, a decoded response is
`NetResponse.ok task_alive`).  `kill_process` sets the `killed` flag.  The
wall-clock deadline is modelled as never expiring, and the end of the line
list as the process having exited (the loop's `break` on `p.poll()`): both
exits return `{'task_alive': True}` after killing the process, as the source
does. -/

structure Stats where
  wins : Int
  losses : Int
  draws : Int
  crashes : Int
  time_losses : Int
  pentanomial : List Int
deriving DecidableEq, Repr

def zeroStats : Stats := ⟨0, 0, 0, 0, 0, List.replicate 5 0⟩

/-- The decoded `update_task` response dict, reduced to the one field the
worker reads. -/
structure TaskStatus where
  task_alive : Bool
deriving DecidableEq, Repr

inductive NetResponse where
  | err : NetResponse
  | ok : Bool → NetResponse
deriving DecidableEq, Repr

structure RGState where
  rounds : Rounds
  stats : Stats
  pairs_updated : Int
  calls : Nat
  killed : Bool
deriving DecidableEq, Repr

def initialRGState (old : Stats) : RGState :=
  { rounds := emptyRounds
    stats := { zeroStats with crashes := old.crashes, time_losses := old.time_losses }
    pairs_updated := 0
    calls := 0
    killed := false }

/-- Source lines 318-320: `chunks = line.split(':')`,
`chunks = chunks[1].split()`, `wld = [int(chunks[0]), int(chunks[2]),
int(chunks[4])]`. -/
def parseScoreWld (line : String) : Except String (Int × Int × Int) := do
  let chunks := splitOnChar ':' line
  let c1 ← pyAtS chunks 1
  let toks := pySplitWs c1
  let w ← parseInt (← pyAtS toks 0)
  let l ← parseInt (← pyAtS toks 2)
  let d ← parseInt (← pyAtS toks 4)
  .ok (w, l, d)

inductive AttemptOutcome where
  | success : AttemptOutcome
  | cancelled : AttemptOutcome
  | exhausted : AttemptOutcome
deriving DecidableEq, Repr

/-- Source lines 341-357: the `for _ in range(0, 5)` update-retry loop.
Returns the total number of `update_task` calls made so far and the way the
loop ended: a response with `task_alive` false (`cancelled`, the source
kills the process and returns the response), a successful acknowledgement
(`success`), or five failed attempts (`exhausted`). -/
def attemptUpdates (net : Nat → NetResponse) : Nat → Nat → Nat × AttemptOutcome
  | 0, calls => (calls, .exhausted)
  | n + 1, calls =>
    match net calls with
    | .err => attemptUpdates net n (calls + 1)
    | .ok alive => if alive then (calls + 1, .success) else (calls + 1, .cancelled)

/-- Outcome of processing one drained line: continue the poll loop, `break`
out of it, or `return` a task status from inside the loop. -/
inductive LineOut where
  | cont : RGState → LineOut
  | brk : RGState → LineOut
  | ret : RGState → TaskStatus → LineOut
deriving DecidableEq, Repr

/-- Source lines 324-334: the per-mode stats update on a score event (the
non-tuning branch subtracts not-yet-paired trinomial contributions). -/
def scoreStats (spsa_tuning : Bool) (old : Stats) (st : RGState)
    (wld : Int × Int × Int) : Except String RGState :=
  if !spsa_tuning then
    getTri st.rounds >>= fun tri =>
    pyGet tri 2 >>= fun t2 =>
    pyGet tri 0 >>= fun t0 =>
    pyGet tri 1 >>= fun t1 =>
    pure { st with stats :=
      { st.stats with
        wins := wld.1 - t2 + old.wins
        losses := wld.2.1 - t0 + old.losses
        draws := wld.2.2 - t1 + old.draws } }
  else
    pure { st with stats :=
      { st.stats with
        wins := wld.1 + old.wins
        losses := wld.2.1 + old.losses
        draws := wld.2.2 + old.draws } }

/-- Source lines 317-362: the whole `'Score' in line` branch — parse the
aggregate counts, validate them, refresh the reported stats, and when a new
game pair has finished run the update-retry loop, whose outcome decides
whether the poll loop continues, breaks, or returns the coordinator's
cancellation response. -/
def scoreStep (spsa_tuning : Bool) (old : Stats) (net : Nat → NetResponse)
    (st : RGState) (line : String) : Except String LineOut :=
  parseScoreWld line >>= fun wld =>
  validate_pentanomial wld st.rounds >>= fun _ =>
  scoreStats spsa_tuning old st wld >>= fun st =>
  getPent st.rounds >>= fun pent =>
  if st.pairs_updated < pent.sum then
    match attemptUpdates net 5 st.calls with
    | (calls, .cancelled) =>
      .ok (LineOut.ret { st with calls := calls, killed := true } ⟨false⟩)
    | (calls, .exhausted) =>
      .ok (LineOut.brk { st with calls := calls, killed := true })
    | (calls, .success) =>
      .ok (LineOut.cont { st with calls := calls, pairs_updated := pent.sum })
  else
    .ok (LineOut.cont st)

/-- Source lines 364-365: run `update_pentanomial` on the line and store the
combined pentanomial into the reported stats. -/
def contFinish (old : Stats) (line : String) (st : RGState) : Except String LineOut :=
  update_pentanomial old.pentanomial line st.rounds >>= fun p =>
  .ok (.cont { st with rounds := p.1, stats := { st.stats with pentanomial := p.2 } })

/-- Source lines 298-365: the body of the poll loop for one line. -/
def processLine (spsa_tuning : Bool) (old : Stats) (net : Nat → NetResponse)
    (st : RGState) (line : String) : Except String LineOut :=
  if containsStr "Finished match" line then
    .ok (.ret { st with killed := true } ⟨true⟩)
  else
    let st :=
      if containsStr "disconnects" line || containsStr "connection stalls" line then
        { st with stats := { st.stats with crashes := st.stats.crashes + 1 } }
      else st
    let st :=
      if containsStr "on time" line then
        { st with stats := { st.stats with time_losses := st.stats.time_losses + 1 } }
      else st
    (if containsStr "Score" line then scoreStep spsa_tuning old net st line
     else pure (LineOut.cont st)) >>= fun out =>
    match out with
    | .cont st => contFinish old line st
    | other => .ok other

/-- Source lines 289-371: the poll loop over the drained lines, ending as
`run_game` does (kill the process and return `{'task_alive': True}` when the
match output ends or a `break` occurred, or propagate an inner `return`). -/
def run_game_lines (spsa_tuning : Bool) (old : Stats) (net : Nat → NetResponse) :
    List String → RGState → Except String (RGState × TaskStatus)
  | [], st => .ok ({ st with killed := true }, ⟨true⟩)
  | line :: rest, st => do
    match ← processLine spsa_tuning old net st line with
    | .cont st' => run_game_lines spsa_tuning old net rest st'
    | .brk st' => .ok ({ st' with killed := true }, ⟨true⟩)
    | .ret st' ts => .ok (st', ts)

def run_game (spsa_tuning : Bool) (old : Stats) (net : Nat → NetResponse)
    (lines : List String) : Except String (RGState × TaskStatus) :=
  run_game_lines spsa_tuning old net lines (initialRGState old)

/-- Source lines 404-414: `launch_cutechess` wraps `run_game` in
`try`/`except` and turns any exception into `{'task_alive': False}`. -/
def launch_cutechess_status (res : Except String (RGState × TaskStatus)) : TaskStatus :=
  match res with
  | .ok (_, ts) => ts
  | .error _ => ⟨false⟩

/-! ## The orchestrator batch loop (games.py lines 564-583)

`old_stats` and `games_remaining` across batches.  `batch i` is the task
status and final result stats produced by batch `i`'s
`launch_cutechess`/`run_game`; `games_to_play` is fixed before the loop, as
in the source.  The fuel argument only bounds the recursion; every claim is
stated with sufficient fuel. -/

structure OrchState where
  old_stats : Stats
  games_remaining : Int
deriving DecidableEq, Repr

/-- Source lines 564-582: run batches until `games_remaining <= 0` or a
batch's status is not alive (`break`).  Returns the final orchestrator state
and the number of batches started. -/
def run_games_loop (batch : Nat → TaskStatus × Stats) (games_to_play : Int) :
    Nat → Nat → OrchState → OrchState × Nat
  | 0, i, s => (s, i)
  | fuel + 1, i, s =>
    if s.games_remaining ≤ 0 then (s, i)
    else
      let (ts, stats) := batch i
      if !ts.task_alive then (s, i + 1)
      else
        run_games_loop batch games_to_play fuel (i + 1)
          { old_stats := stats, games_remaining := s.games_remaining - games_to_play }

/-! ## Derived notions used by the claims -/

/-- The trinomial list of a rounds state (empty when the key is absent). -/
def triOf (r : Rounds) : List Int := r.trinomial.getD []

/-- The pentanomial list of a rounds state (empty when the key is absent). -/
def pentOf (r : Rounds) : List Int := r.pentanomial.getD []

/-- The pairing-count weight `sum(trinomial) + 2*sum(pentanomial)`. -/
def weight (r : Rounds) : Int := (triOf r).sum + 2 * (pentOf r).sum

/-- Every entry of the list is nonnegative. -/
def allNonneg (l : List Int) : Prop := ∀ x ∈ l, 0 ≤ x

instance (l : List Int) : Decidable (allNonneg l) := by unfold allNonneg; infer_instance

/-- Token-level version of `foldsKnownGame`. -/
def foldsKnownToks (toks : List String) : Bool :=
  match toks with
  | t0 :: t1 :: rest =>
    t0 = "Finished" && t1 = "game" && decide ((t0 :: t1 :: rest).length ≥ 7) &&
      !(result_to_score ((t0 :: t1 :: rest).getD 6 "") = -1)
  | _ => false

/-- A line that `update_pentanomial` folds into the trinomial: a
`Finished game` line with at least seven tokens whose seventh token carries a
known result. -/
def foldsKnownGame (line : String) : Bool := foldsKnownToks (pySplitWs line)

/-- The pair-score formula as the specification words it, with quarter-point
weights on the pentanomial buckets.
Modelled from the spec: `score5 = Σ pentanomial[k]*(k/4) + Σ trinomial[k]*(k/2)`. -/
def spec_score5 (pent tri : List Int) : PyFloat :=
  pfAdd (goQuarter 0 pent) (results_to_score tri)
where
  goQuarter : Nat → List Int → PyFloat
    | _, [] => pfOfInt 0
    | i, x :: tl => pfAdd (pfMul (pfOfInt x) (pfDiv (pfOfInt i) (pfOfInt 4))) (goQuarter (i + 1) tl)

/-! ## Concrete match-output lines used by the claims -/

def lineDraw1 : String := "Finished game 1 (New-abc vs Base-xyz): 1/2-1/2 {Draw by adjudication}"

def lineWin2 : String := "Finished game 2 (Base-xyz vs New-abc): 1-0 {White mates}"

def lineWin1 : String := "Finished game 1 (New-abc vs Base-xyz): 1-0 {White mates}"

def lineLoss2 : String := "Finished game 2 (Base-xyz vs New-abc): 0-1 {Black mates}"

def lineScore2 : String := "Score of New-abc vs Base-xyz: 2 - 0 - 0  [1.000] 2"

def lineScore1 : String := "Score of New-abc vs Base-xyz: 0 - 0 - 1  [0.500] 1"

/-! ## General-purpose inversion lemmas -/

theorem strAppend_assoc (a b c : String) : a ++ b ++ c = a ++ (b ++ c) := by
  cases a with
  | mk da =>
    cases b with
    | mk db =>
      cases c with
      | mk dc =>
        show String.mk ((da ++ db) ++ dc) = String.mk (da ++ (db ++ dc))
        rw [List.append_assoc]

theorem strAppend_empty (a : String) : a ++ "" = a := by
  cases a with
  | mk da =>
    show String.mk (da ++ []) = String.mk da
    rw [List.append_nil]

theorem empty_strAppend (a : String) : "" ++ a = a := by
  cases a with
  | mk da => rfl

theorem bindE_ok {α β : Type} {x : Except String α} {f : α → Except String β} {b : β} :
    (x >>= f) = .ok b ↔ ∃ a, x = .ok a ∧ f a = .ok b := by
  cases x <;> simp [Bind.bind, Except.bind]

theorem mapE_ok {α β : Type} {x : Except String α} {f : α → β} {b : β} :
    (x.map f) = .ok b ↔ ∃ a, x = .ok a ∧ f a = b := by
  cases x <;> simp [Except.map]

theorem pureE_ok {α : Type} {a b : α} :
    (pure a : Except String α) = .ok b ↔ a = b := by
  simp [pure, Except.pure]

/-! ## Lemmas about Python list operations -/

theorem getD_set_self (l : List Int) (n : Nat) (a : Int) (h : n < l.length) :
    (l.set n a).getD n 0 = a := by
  induction l generalizing n with
  | nil => simp at h
  | cons x tl ih =>
    cases n with
    | zero => simp [List.set]
    | succ m => simpa [List.set] using ih m (by simpa using h)

theorem getD_set_ne (l : List Int) (m n : Nat) (a : Int) (h : m ≠ n) :
    (l.set n a).getD m 0 = l.getD m 0 := by
  induction l generalizing m n with
  | nil => simp [List.set]
  | cons x tl ih =>
    cases n with
    | zero => cases m with
      | zero => exact absurd rfl h
      | succ k => simp [List.set]
    | succ n' => cases m with
      | zero => simp [List.set]
      | succ k => simpa [List.set] using ih k n' (fun hk => h (by simp [hk]))

theorem sum_set (l : List Int) (n : Nat) (a : Int) (h : n < l.length) :
    (l.set n a).sum = l.sum - l.getD n 0 + a := by
  induction l generalizing n with
  | nil => simp at h
  | cons x tl ih =>
    cases n with
    | zero => simp [List.set]; ring
    | succ m =>
      have := ih m (by simpa using h)
      simp [List.set, this]; ring

theorem mem_set_cases {l : List Int} {n : Nat} {a x : Int} (h : x ∈ l.set n a) :
    x = a ∨ x ∈ l := by
  induction l generalizing n with
  | nil => simp [List.set] at h
  | cons y tl ih =>
    cases n with
    | zero =>
      rcases List.mem_cons.mp h with h | h
      · exact Or.inl h
      · exact Or.inr (List.mem_cons_of_mem _ h)
    | succ m =>
      rcases List.mem_cons.mp h with h | h
      · exact Or.inr (h ▸ List.mem_cons_self _ _)
      · rcases ih h with h | h
        · exact Or.inl h
        · exact Or.inr (List.mem_cons_of_mem _ h)

theorem allNonneg_getD {l : List Int} (h : allNonneg l) (m : Nat) : 0 ≤ l.getD m 0 := by
  by_cases hm : m < l.length
  · rw [List.getD_eq_getElem l 0 hm]
    exact h _ (List.getElem_mem hm)
  · rw [List.getD_eq_default l 0 (Nat.le_of_not_lt hm)]

theorem pyGet_ok {l : List Int} {k : Int} {v : Int} :
    pyGet l k = .ok v ↔ ∃ n, pyIndex l.length k = some n ∧ v = l.getD n 0 := by
  unfold pyGet
  cases h : pyIndex l.length k with
  | none => simp
  | some n => simp; exact eq_comm

theorem pyIndex_lt {n : Nat} {k : Int} {m : Nat} (h : pyIndex n k = some m) : m < n := by
  simp only [pyIndex] at h
  set k' : Int := if k < 0 then k + n else k with hk'
  by_cases hc : 0 ≤ k' ∧ k' < n
  · rw [if_pos hc] at h
    cases h
    omega
  · rw [if_neg hc] at h
    cases h

theorem pySet_ok {l : List Int} {k : Int} {v : Int} {l' : List Int} :
    pySet l k v = .ok l' ↔ ∃ n, pyIndex l.length k = some n ∧ l' = l.set n v := by
  unfold pySet
  cases h : pyIndex l.length k with
  | none => simp
  | some n => simp; exact eq_comm

theorem pyAdd_ok {l : List Int} {k d : Int} {l' : List Int} :
    pyAdd l k d = .ok l' ↔
    ∃ n, pyIndex l.length k = some n ∧ l' = l.set n (l.getD n 0 + d) := by
  unfold pyAdd
  rw [bindE_ok]
  constructor
  · rintro ⟨v, hget, hset⟩
    rcases pyGet_ok.mp hget with ⟨n, hidx, hv⟩
    rcases pySet_ok.mp hset with ⟨n', hidx', hl'⟩
    rw [hidx] at hidx'
    cases hidx'
    exact ⟨n, hidx, by rw [hl', hv]⟩
  · rintro ⟨n, hidx, hl'⟩
    exact ⟨l.getD n 0, pyGet_ok.mpr ⟨n, hidx, rfl⟩,
      pySet_ok.mpr ⟨n, hidx, hl'⟩⟩

theorem pyAdd_length {l : List Int} {k d : Int} {l' : List Int}
    (h : pyAdd l k d = .ok l') : l'.length = l.length := by
  rcases pyAdd_ok.mp h with ⟨n, _, hl'⟩
  simp [hl']

theorem pyAdd_sum {l : List Int} {k d : Int} {l' : List Int}
    (h : pyAdd l k d = .ok l') : l'.sum = l.sum + d := by
  rcases pyAdd_ok.mp h with ⟨n, hidx, hl'⟩
  have hn := pyIndex_lt hidx
  rw [hl', sum_set _ _ _ hn]
  ring

theorem pyAdd_nonneg {l : List Int} {k d : Int} {l' : List Int}
    (h : pyAdd l k d = .ok l') (hl : allNonneg l) (hd : 0 ≤ d) : allNonneg l' := by
  rcases pyAdd_ok.mp h with ⟨n, hidx, hl'⟩
  intro x hx
  rw [hl'] at hx
  rcases mem_set_cases hx with hx | hx
  · subst hx
    have := allNonneg_getD hl n
    omega
  · exact hl _ hx

theorem allNonneg_of_getD {l : List Int} (h : ∀ m : Nat, 0 ≤ l.getD m 0) :
    allNonneg l := by
  intro x hx
  rcases List.mem_iff_getElem.mp hx with ⟨n, hn, rfl⟩
  have := h n
  rwa [List.getD_eq_getElem l 0 hn] at this

theorem getTri_ok {r : Rounds} {l : List Int} :
    getTri r = .ok l ↔ r.trinomial = some l := by
  unfold getTri
  cases r.trinomial <;> simp

theorem getPent_ok {r : Rounds} {l : List Int} :
    getPent r = .ok l ↔ r.pentanomial = some l := by
  unfold getPent
  cases r.pentanomial <;> simp

/-! ## Lemmas about the round-record dictionary -/

theorem lookupGame_cons (p : Int × RoundRecord) (tl : List (Int × RoundRecord)) (j : Int) :
    lookupGame (p :: tl) j = if p.1 = j then some p.2 else lookupGame tl j := by
  simp only [lookupGame, List.find?]
  by_cases h : p.1 = j <;> simp [h]

theorem lookupGame_erase (g : List (Int × RoundRecord)) (k j : Int) :
    lookupGame (eraseGame g k) j = if j = k then none else lookupGame g j := by
  induction g with
  | nil => by_cases h : j = k <;> simp [lookupGame, eraseGame, h]
  | cons p tl ih =>
    by_cases hpk : p.1 = k
    · have he : eraseGame (p :: tl) k = eraseGame tl k := by
        simp [eraseGame, List.filter, hpk]
      rw [he, ih]
      by_cases hjk : j = k
      · simp [hjk]
      · rw [if_neg hjk, if_neg hjk, lookupGame_cons,
          if_neg (by rw [hpk]; exact fun he' => hjk he'.symm)]
    · have he : eraseGame (p :: tl) k = p :: eraseGame tl k := by
        simp [eraseGame, List.filter, hpk]
      rw [he, lookupGame_cons, lookupGame_cons, ih]
      by_cases hjk : j = k
      · rw [if_pos hjk, if_pos hjk, if_neg (fun hh : p.1 = j => hpk (hh.trans hjk))]
      · rw [if_neg hjk, if_neg hjk]

theorem lookupGame_erase_self (g : List (Int × RoundRecord)) (k : Int) :
    lookupGame (eraseGame g k) k = none := by
  rw [lookupGame_erase, if_pos rfl]

/-! ## Component lemmas for update_pentanomial -/

theorem triOf_some {r : Rounds} {l : List Int} (h : r.trinomial = some l) : triOf r = l := by
  simp [triOf, h]

theorem pentOf_some {r : Rounds} {l : List Int} (h : r.pentanomial = some l) : pentOf r = l := by
  simp [pentOf, h]

theorem initRounds_weight (r : Rounds) : weight (initRounds r) = weight r := by
  unfold weight triOf pentOf initRounds
  cases r.trinomial <;> cases r.pentanomial <;> simp [List.sum_replicate]

theorem initRounds_nonneg (r : Rounds) (h : allNonneg (triOf r)) :
    allNonneg (triOf (initRounds r)) := by
  unfold triOf initRounds at *
  cases hr : r.trinomial with
  | none =>
    intro x hx
    simp at hx
    subst hx
    exact le_refl 0
  | some l =>
    rw [hr] at h
    simpa using h

theorem initRounds_tri_len (r : Rounds)
    (h : ∀ l, r.trinomial = some l → l.length = 3) :
    ∀ l, (initRounds r).trinomial = some l → l.length = 3 := by
  unfold initRounds
  cases hr : r.trinomial with
  | none => intro l hl; simp at hl; subst hl; simp
  | some l₀ => intro l hl; simp at hl; subst hl; exact h l₀ hr

theorem initRounds_pent_len (r : Rounds)
    (h : ∀ l, r.pentanomial = some l → l.length = 5) :
    ∀ l, (initRounds r).pentanomial = some l → l.length = 5 := by
  unfold initRounds
  cases hr : r.pentanomial with
  | none => intro l hl; simp at hl; subst hl; simp
  | some l₀ => intro l hl; simp at hl; subst hl; exact h l₀ hr

theorem storeRound_ok {toks : List String} {r r₁ : Rounds} {rd i : Int}
    (h : storeRound toks r = .ok (r₁, rd, i)) :
    r₁.trinomial = r.trinomial ∧ r₁.pentanomial = r.pentanomial ∧
    (6 < toks.length → i = result_to_score (toks.getD 6 "")) := by
  unfold storeRound at h
  rw [bindE_ok] at h; obtain ⟨t2, h2, h⟩ := h
  rw [bindE_ok] at h; obtain ⟨rd', hrd, h⟩ := h
  rw [bindE_ok] at h; obtain ⟨t3, h3, h⟩ := h
  rw [bindE_ok] at h; obtain ⟨t5, h5, h⟩ := h
  rw [bindE_ok] at h; obtain ⟨t6, h6, h⟩ := h
  simp only [Except.ok.injEq, Prod.mk.injEq] at h
  obtain ⟨hr₁, hrd2, hi⟩ := h
  subst hr₁
  refine ⟨rfl, rfl, ?_⟩
  intro hlen
  unfold pyAtS at h6
  rw [if_pos hlen] at h6
  simp only [Except.ok.injEq] at h6
  subst h6
  exact hi.symm

theorem foldTri_ok {r : Rounds} {round_ i : Int} {r₂ : Rounds} {odd even : Int}
    (h : foldTri r round_ i = .ok (r₂, odd, even)) :
    r₂.pentanomial = r.pentanomial ∧ r₂.games = r.games ∧
    (triOf r₂).sum = (triOf r).sum + (if i = -1 then 0 else 1) ∧
    (allNonneg (triOf r) → allNonneg (triOf r₂)) ∧
    (∀ l, r₂.trinomial = some l → ∃ l₀, r.trinomial = some l₀ ∧ l.length = l₀.length) ∧
    (r.trinomial.isSome → r₂.trinomial.isSome) := by
  have main : ∀ (idx : Int) (ra : Rounds), foldTriAdd r idx i = .ok ra →
      ra.pentanomial = r.pentanomial ∧ ra.games = r.games ∧
      (triOf ra).sum = (triOf r).sum + (if i = -1 then 0 else 1) ∧
      (allNonneg (triOf r) → allNonneg (triOf ra)) ∧
      (∀ l, ra.trinomial = some l → ∃ l₀, r.trinomial = some l₀ ∧ l.length = l₀.length) ∧
      (r.trinomial.isSome → ra.trinomial.isSome) := by
    intro idx ra hra
    unfold foldTriAdd at hra
    by_cases hi : i = -1
    · rw [if_neg (by simp [hi])] at hra
      rw [pureE_ok] at hra
      subst hra
      exact ⟨rfl, rfl, by simp [hi], fun hh => hh, fun l hl => ⟨l, hl, rfl⟩, fun hh => hh⟩
    · rw [if_pos (by simp [hi])] at hra
      rw [bindE_ok] at hra; obtain ⟨tri, htri, hra⟩ := hra
      rw [bindE_ok] at hra; obtain ⟨tri', hadd, hra⟩ := hra
      rw [pureE_ok] at hra
      subst hra
      have hsome := getTri_ok.mp htri
      have htriOf := triOf_some hsome
      have hset : triOf (setTri r tri') = tri' := by simp [triOf, setTri]
      refine ⟨rfl, rfl, ?_, ?_, ?_, ?_⟩
      · rw [hset, htriOf, pyAdd_sum hadd, if_neg hi]
      · intro hn
        rw [hset]
        exact pyAdd_nonneg hadd (htriOf ▸ hn) (by norm_num)
      · intro l hl
        simp only [setTri] at hl
        simp only [Option.some.injEq] at hl
        subst hl
        exact ⟨tri, hsome, pyAdd_length hadd⟩
      · intro
        simp [setTri]
  unfold foldTri at h
  by_cases hpar : round_ % 2 = 0
  · rw [if_pos hpar, mapE_ok] at h
    obtain ⟨ra, hra, hok⟩ := h
    simp only [Prod.mk.injEq] at hok
    obtain ⟨hr₂, -, -⟩ := hok
    subst hr₂
    exact main _ ra hra
  · rw [if_neg hpar, mapE_ok] at h
    obtain ⟨ra, hra, hok⟩ := h
    simp only [Prod.mk.injEq] at hok
    obtain ⟨hr₂, -, -⟩ := hok
    subst hr₂
    exact main _ ra hra

theorem pairStep_pair_spec {r : Rounds} {odd even : Int} {ro re : RoundRecord} {r' : Rounds}
    (hodd : lookupGame r.games odd = some ro) (heven : lookupGame r.games even = some re)
    (hi : ro.result ≠ -1) (hj : re.result ≠ -1)
    (h : pairStep r odd even = .ok r') :
    ∃ pent pent' tri tri1 tri2,
      r.pentanomial = some pent ∧ r.trinomial = some tri ∧
      pyAdd pent (ro.result + 2 - re.result) 1 = .ok pent' ∧
      pyAdd tri ro.result (-1) = .ok tri1 ∧
      pyAdd tri1 (2 - re.result) (-1) = .ok tri2 ∧
      r' = ⟨some pent', some tri2, eraseGame (eraseGame r.games odd) even⟩ ∧
      (∃ vi, pyGet tri2 ro.result = .ok vi ∧ 0 ≤ vi) ∧
      (∃ vj, pyGet tri2 (2 - re.result) = .ok vj ∧ 0 ≤ vj) := by
  unfold pairStep at h
  rw [hodd, heven] at h
  simp only at h
  split at h
  case isFalse => exact absurd h (by simp)
  split at h
  case isFalse => exact absurd h (by simp)
  split at h
  case isFalse => exact absurd h (by simp)
  rw [if_pos ⟨hi, hj⟩] at h
  rw [bindE_ok] at h; obtain ⟨pent, hpent, h⟩ := h
  rw [bindE_ok] at h; obtain ⟨pent', haddp, h⟩ := h
  rw [bindE_ok] at h; obtain ⟨tri, htri, h⟩ := h
  rw [bindE_ok] at h; obtain ⟨tri1, hadd1, h⟩ := h
  rw [bindE_ok] at h; obtain ⟨tri2, hadd2, h⟩ := h
  rw [bindE_ok] at h; obtain ⟨vi, hvi, h⟩ := h
  split at h
  case isFalse => exact absurd h (by simp)
  rw [bindE_ok] at h; obtain ⟨vj, hvj, h⟩ := h
  split at h
  case isFalse => exact absurd h (by simp)
  simp only [Except.ok.injEq] at h
  subst h
  refine ⟨pent, pent', tri, tri1, tri2, getPent_ok.mp hpent, getTri_ok.mp htri,
    haddp, hadd1, hadd2, rfl, ⟨vi, hvi, by assumption⟩, ⟨vj, hvj, by assumption⟩⟩

theorem pairStep_ok {r : Rounds} {odd even : Int} {r' : Rounds}
    (h : pairStep r odd even = .ok r') :
    weight r' = weight r ∧ (allNonneg (triOf r) → allNonneg (triOf r')) ∧
    (∀ l, r'.trinomial = some l → ∃ l₀, r.trinomial = some l₀ ∧ l.length = l₀.length) ∧
    (∀ l, r'.pentanomial = some l → ∃ l₀, r.pentanomial = some l₀ ∧ l.length = l₀.length) ∧
    (r.trinomial.isSome → r'.trinomial.isSome) := by
  have triv : r' = r →
      weight r' = weight r ∧ (allNonneg (triOf r) → allNonneg (triOf r')) ∧
      (∀ l, r'.trinomial = some l → ∃ l₀, r.trinomial = some l₀ ∧ l.length = l₀.length) ∧
      (∀ l, r'.pentanomial = some l → ∃ l₀, r.pentanomial = some l₀ ∧ l.length = l₀.length) ∧
      (r.trinomial.isSome → r'.trinomial.isSome) := by
    rintro rfl
    exact ⟨rfl, fun hh => hh, fun l hl => ⟨l, hl, rfl⟩, fun l hl => ⟨l, hl, rfl⟩, fun hh => hh⟩
  cases hOdd : lookupGame r.games odd with
  | none =>
    unfold pairStep at h
    rw [hOdd] at h
    cases hEven : lookupGame r.games even with
    | none =>
      rw [hEven] at h; simp only at h
      simp only [Except.ok.injEq] at h
      exact triv h.symm
    | some re =>
      rw [hEven] at h; simp only at h
      simp only [Except.ok.injEq] at h
      exact triv h.symm
  | some ro =>
    cases hEven : lookupGame r.games even with
    | none =>
      unfold pairStep at h
      rw [hOdd, hEven] at h; simp only at h
      simp only [Except.ok.injEq] at h
      exact triv h.symm
    | some re =>
      by_cases hij : ro.result ≠ -1 ∧ re.result ≠ -1
      · obtain ⟨pent, pent', tri, tri1, tri2, hpent, htri, haddp, hadd1, hadd2, hr',
          ⟨vi, hvi, hvi0⟩, ⟨vj, hvj, hvj0⟩⟩ :=
          pairStep_pair_spec hOdd hEven hij.1 hij.2 h
        have hlen1 : tri1.length = tri.length := pyAdd_length hadd1
        have hlen2 : tri2.length = tri1.length := pyAdd_length hadd2
        obtain ⟨n1, hidx1, htri1⟩ := pyAdd_ok.mp hadd1
        obtain ⟨n2, hidx2, htri2⟩ := pyAdd_ok.mp hadd2
        obtain ⟨m1, hidxm1, hvieq⟩ := pyGet_ok.mp hvi
        obtain ⟨m2, hidxm2, hvjeq⟩ := pyGet_ok.mp hvj
        rw [hlen2, hlen1, hidx1] at hidxm1
        rw [hlen2, hidx2] at hidxm2
        have hm1 : m1 = n1 := (Option.some.inj hidxm1).symm
        have hm2 : m2 = n2 := (Option.some.inj hidxm2).symm
        subst hm1; subst hm2
        have htriOf : triOf r = tri := triOf_some htri
        have hpentOf : pentOf r = pent := pentOf_some hpent
        have htriOf' : triOf r' = tri2 := by rw [hr']; rfl
        have hpentOf' : pentOf r' = pent' := by rw [hr']; rfl
        refine ⟨?_, ?_, ?_, ?_, ?_⟩
        · unfold weight
          rw [htriOf, hpentOf, htriOf', hpentOf', pyAdd_sum haddp,
            pyAdd_sum hadd2, pyAdd_sum hadd1]
          ring
        · intro hn
          rw [htriOf] at hn
          rw [htriOf']
          apply allNonneg_of_getD
          intro m
          by_cases hmn2 : m = m2
          · subst hmn2; rw [← hvjeq]; exact hvj0
          · by_cases hmn1 : m = m1
            · subst hmn1; rw [← hvieq]; exact hvi0
            · rw [htri2, getD_set_ne _ _ _ _ hmn2, htri1, getD_set_ne _ _ _ _ hmn1]
              exact allNonneg_getD hn m
        · intro l hl
          rw [hr'] at hl
          simp only [Option.some.injEq] at hl
          subst hl
          exact ⟨tri, htri, hlen2.trans hlen1⟩
        · intro l hl
          rw [hr'] at hl
          simp only [Option.some.injEq] at hl
          subst hl
          exact ⟨pent, hpent, pyAdd_length haddp⟩
        · intro
          rw [hr']
          rfl
      · unfold pairStep at h
        rw [hOdd, hEven] at h; simp only at h
        split at h
        · split at h
          · split at h
            · simp only [if_neg hij, Except.ok.injEq] at h
              exact triv h.symm
            · exact absurd h (by simp)
          · exact absurd h (by simp)
        · exact absurd h (by simp)

theorem finishedGameCond_false {toks : List String}
    (h : finishedGameCond toks = .ok false) : foldsKnownToks toks = false := by
  cases toks with
  | nil => simp [finishedGameCond] at h
  | cons t0 rest =>
    by_cases h0 : t0 = "Finished"
    · cases rest with
      | nil => simp [finishedGameCond, h0] at h
      | cons t1 rest2 =>
        simp only [finishedGameCond, if_pos h0, Except.ok.injEq] at h
        unfold foldsKnownToks
        simp only [h0, decide_True, Bool.true_and]
        rw [Bool.and_eq_false_iff] at h ⊢
        rcases h with h | h
        · left
          rw [Bool.and_eq_false_iff]
          left
          simpa using h
        · left
          rw [Bool.and_eq_false_iff]
          right
          simpa using h
    · unfold foldsKnownToks
      cases rest with
      | nil => rfl
      | cons t1 rest2 => simp [h0]

theorem finishedGameCond_true {toks : List String}
    (h : finishedGameCond toks = .ok true) :
    7 ≤ toks.length ∧
    foldsKnownToks toks = !decide (result_to_score (toks.getD 6 "") = -1) := by
  cases toks with
  | nil => simp [finishedGameCond] at h
  | cons t0 rest =>
    by_cases h0 : t0 = "Finished"
    · cases rest with
      | nil => simp [finishedGameCond, h0] at h
      | cons t1 rest2 =>
        simp only [finishedGameCond, if_pos h0, Except.ok.injEq] at h
        rw [Bool.and_eq_true] at h
        obtain ⟨h1, hlen⟩ := h
        refine ⟨by simpa using of_decide_eq_true hlen, ?_⟩
        unfold foldsKnownToks
        simp only [h0, of_decide_eq_true h1, of_decide_eq_true hlen]
        simp [h0, of_decide_eq_true h1, of_decide_eq_true hlen]
        intro
        have hl := of_decide_eq_true hlen
        simp at hl
        omega
    · cases rest with
      | nil => simp [finishedGameCond, h0] at h
      | cons t1 rest2 => simp [finishedGameCond, h0] at h

theorem update_pentanomial_step {oldPent : List Int} {line : String} {r r' : Rounds}
    {out : List Int} (h : update_pentanomial oldPent line r = .ok (r', out)) :
    (allNonneg (triOf r) → allNonneg (triOf r')) ∧
    weight r' = weight r + (if foldsKnownGame line then 1 else 0) ∧
    ((∀ l, r.trinomial = some l → l.length = 3) →
      (∀ l, r'.trinomial = some l → l.length = 3)) ∧
    ((∀ l, r.pentanomial = some l → l.length = 5) →
      (∀ l, r'.pentanomial = some l → l.length = 5)) ∧
    r'.trinomial.isSome ∧ r'.pentanomial.isSome := by
  unfold update_pentanomial at h
  rw [bindE_ok] at h; obtain ⟨b, hb, h⟩ := h
  rw [bindE_ok] at h; obtain ⟨r1, hr1, h⟩ := h
  rw [bindE_ok] at h; obtain ⟨pent, hpent, h⟩ := h
  rw [bindE_ok] at h; obtain ⟨outv, hout, h⟩ := h
  simp only [Except.ok.injEq, Prod.mk.injEq] at h
  obtain ⟨h1, -⟩ := h
  subst h1
  have hpentSome : r1.pentanomial.isSome := by
    rw [getPent_ok.mp hpent]; rfl
  cases b with
  | false =>
    rw [if_neg (by simp)] at hr1
    rw [pureE_ok] at hr1
    subst hr1
    have hfk : foldsKnownGame line = false := finishedGameCond_false hb
    refine ⟨initRounds_nonneg r, ?_, fun hh => initRounds_tri_len r hh,
      fun hh => initRounds_pent_len r hh, ?_, hpentSome⟩
    · rw [hfk, initRounds_weight]
      simp
    · unfold initRounds
      rfl
  | true =>
    obtain ⟨hlen7, hfk⟩ := finishedGameCond_true hb
    rw [if_pos rfl] at hr1
    unfold gameLineStep at hr1
    rw [bindE_ok] at hr1; obtain ⟨⟨rA, rd, i⟩, hstore, hr1⟩ := hr1
    rw [bindE_ok] at hr1; obtain ⟨⟨rB, odd, even⟩, hfold, hpair⟩ := hr1
    obtain ⟨hAtri, hApent, hAi⟩ := storeRound_ok hstore
    have hi : i = result_to_score ((pySplitWs line).getD 6 "") := hAi (by omega)
    obtain ⟨hBpent, -, hBsum, hBnonneg, hBlen, hBsome⟩ := foldTri_ok hfold
    obtain ⟨hCweight, hCnonneg, hClen, hCpentlen, hCsome⟩ := pairStep_ok hpair
    have hA_weight : weight rA = weight (initRounds r) := by
      unfold weight triOf pentOf
      rw [hAtri, hApent]
    have hA_triOf : triOf rA = triOf (initRounds r) := by
      unfold triOf; rw [hAtri]
    have hA_pentOf : pentOf rA = pentOf (initRounds r) := by
      unfold pentOf; rw [hApent]
    have hB_weight : weight rB = weight rA + (if i = -1 then 0 else 1) := by
      unfold weight
      have : pentOf rB = pentOf rA := by unfold pentOf; rw [hBpent]
      rw [this, hBsum]
      ring
    refine ⟨?_, ?_, ?_, ?_, ?_, hpentSome⟩
    · intro hn
      apply hCnonneg
      apply hBnonneg
      rw [hA_triOf]
      exact initRounds_nonneg r hn
    · rw [hCweight, hB_weight, hA_weight, initRounds_weight]
      unfold foldsKnownGame
      rw [hfk, ← hi]
      by_cases hi1 : i = -1 <;> simp [hi1]
    · intro hh l hl
      obtain ⟨lB, hlB, hlenB⟩ := hClen l hl
      obtain ⟨lA, hlA, hlenA⟩ := hBlen lB hlB
      rw [hAtri] at hlA
      rw [hlenB, hlenA]
      exact initRounds_tri_len r hh lA hlA
    · intro hh l hl
      obtain ⟨lB, hlB, hlenB⟩ := hCpentlen l hl
      rw [hBpent, hApent] at hlB
      rw [hlenB]
      exact initRounds_pent_len r hh lB hlB
    · apply hCsome
      apply hBsome
      rw [hAtri]
      unfold initRounds
      rfl

theorem processLines_nil {oldPent : List Int} {r r' : Rounds}
    (h : processLines oldPent [] r = .ok r') : r' = r := by
  simp only [processLines, List.foldlM] at h
  exact (pureE_ok.mp h).symm

theorem processLines_inv {oldPent : List Int} : ∀ (lines : List String) (r r' : Rounds),
    processLines oldPent lines r = .ok r' →
    allNonneg (triOf r) →
    (∀ l, r.trinomial = some l → l.length = 3) →
    (∀ l, r.pentanomial = some l → l.length = 5) →
    allNonneg (triOf r') ∧
    weight r' = weight r + ((lines.filter foldsKnownGame).length : Int) ∧
    (∀ l, r'.trinomial = some l → l.length = 3) ∧
    (∀ l, r'.pentanomial = some l → l.length = 5) ∧
    (lines = [] ∨ (r'.trinomial.isSome ∧ r'.pentanomial.isSome)) := by
  intro lines
  induction lines with
  | nil =>
    intro r r' h hn h3 h5
    have := processLines_nil h
    subst this
    exact ⟨hn, by simp, h3, h5, Or.inl rfl⟩
  | cons line rest ih =>
    intro r r' h hn h3 h5
    have hcons : processLines oldPent (line :: rest) r =
        (update_pentanomial oldPent line r).map Prod.fst >>= fun r1 =>
          processLines oldPent rest r1 := by
      simp [processLines, List.foldlM]
    rw [hcons, bindE_ok] at h
    obtain ⟨r1, hmap, hrest⟩ := h
    rw [mapE_ok] at hmap
    obtain ⟨⟨rr, outv⟩, hupd, hfst⟩ := hmap
    have hr1 : r1 = rr := hfst.symm
    subst hr1
    obtain ⟨s1, s2, s3, s4, s5, s6⟩ := update_pentanomial_step hupd
    obtain ⟨t1, t2, t3, t4, t5⟩ := ih r1 r' hrest (s1 hn) (s3 h3) (s4 h5)
    refine ⟨t1, ?_, t3, t4, ?_⟩
    · rw [t2, s2]
      by_cases hf : foldsKnownGame line <;> simp [hf] <;> ring
    · right
      rcases t5 with hrest0 | hsome
      · subst hrest0
        have := processLines_nil hrest
        subst this
        exact ⟨s5, s6⟩
      · exact hsome

/-! ## Claim theorems -/

/-- Claim C1: for every sequence of output lines processed by
`update_pentanomial` within one batch (rounds starting empty), after every
event every trinomial entry is nonnegative (and the trinomial list has its
three entries `k = 0, 1, 2`), and `sum(trinomial) + 2*sum(pentanomial)`
equals the number of individual games whose result was known and has been
folded in so far.  Quantifying over all line sequences covers the state
after every event, since every intermediate state is the final state of a
prefix. -/
theorem claim_C1 (oldPent : List Int) (lines : List String) (r' : Rounds)
    (h : processLines oldPent lines emptyRounds = .ok r') :
    allNonneg (triOf r') ∧
    (∀ l, r'.trinomial = some l → l.length = 3) ∧
    weight r' = ((lines.filter foldsKnownGame).length : Int) ∧
    (lines ≠ [] → r'.trinomial.isSome) := by
  obtain ⟨t1, t2, t3, t4, t5⟩ := processLines_inv lines emptyRounds r' h
    (by intro x hx; simp [triOf, emptyRounds] at hx)
    (by intro l hl; simp [emptyRounds] at hl)
    (by intro l hl; simp [emptyRounds] at hl)
  refine ⟨t1, t3, ?_, ?_⟩
  · rw [t2]
    simp [weight, triOf, pentOf, emptyRounds]
  · intro hne
    exact (t5.resolve_left hne).1

/-- Witness for claim C1 at the concrete two-line pair
`lineDraw1, lineWin2`. -/
theorem claim_C1_witness :
    allNonneg (triOf (⟨some [0, 1, 0, 0, 0], some [0, 0, 0], []⟩ : Rounds)) ∧
    weight ⟨some [0, 1, 0, 0, 0], some [0, 0, 0], []⟩ =
      (([lineDraw1, lineWin2].filter foldsKnownGame).length : Int) :=
  let h := claim_C1 (List.replicate 5 0) [lineDraw1, lineWin2]
    ⟨some [0, 1, 0, 0, 0], some [0, 0, 0], []⟩ rfl
  ⟨h.1, h.2.2.1⟩

/-- Claim C2: when `update_pentanomial` sees that both round records of a
pair exist with known scores `i` (odd round) and `j` (even round), the
pairing step increments `pentanomial[i+2-j]` by exactly one, decrements
`trinomial[i]` and `trinomial[2-j]` each by one with both asserted entries
remaining nonnegative, and deletes both round records; and for the concrete
pair round 1 `(White=New-abc, Black=Base-xyz, draw)` followed by round 2
`(White=Base-xyz, Black=New-abc, 1-0)`, exactly one pentanomial bucket
(index 1) has been incremented, both records are gone and the trinomial is
back to all zeros. -/
theorem claim_C2 :
    (∀ (r : Rounds) (odd even : Int) (ro re : RoundRecord) (r' : Rounds),
      lookupGame r.games odd = some ro → lookupGame r.games even = some re →
      ro.result ≠ -1 → re.result ≠ -1 →
      pairStep r odd even = .ok r' →
      ∃ pent pent' tri tri1 tri2,
        r.pentanomial = some pent ∧ r.trinomial = some tri ∧
        pyAdd pent (ro.result + 2 - re.result) 1 = .ok pent' ∧
        pent'.sum = pent.sum + 1 ∧
        pyAdd tri ro.result (-1) = .ok tri1 ∧
        pyAdd tri1 (2 - re.result) (-1) = .ok tri2 ∧
        tri2.sum = tri.sum - 2 ∧
        r' = ⟨some pent', some tri2, eraseGame (eraseGame r.games odd) even⟩ ∧
        lookupGame r'.games odd = none ∧ lookupGame r'.games even = none ∧
        (∃ vi, pyGet tri2 ro.result = .ok vi ∧ 0 ≤ vi) ∧
        (∃ vj, pyGet tri2 (2 - re.result) = .ok vj ∧ 0 ≤ vj)) ∧
    processLines (List.replicate 5 0) [lineDraw1, lineWin2] emptyRounds =
      .ok ⟨some [0, 1, 0, 0, 0], some [0, 0, 0], []⟩ := by
  constructor
  · intro r odd even ro re r' hodd heven hi hj h
    obtain ⟨pent, pent', tri, tri1, tri2, hp, ht, haddp, hadd1, hadd2, hr', hvi, hvj⟩ :=
      pairStep_pair_spec hodd heven hi hj h
    refine ⟨pent, pent', tri, tri1, tri2, hp, ht, haddp, pyAdd_sum haddp, hadd1, hadd2, ?_,
      hr', ?_, ?_, hvi, hvj⟩
    · rw [pyAdd_sum hadd2, pyAdd_sum hadd1]
      ring
    · rw [hr']
      show lookupGame (eraseGame (eraseGame r.games odd) even) odd = none
      rw [lookupGame_erase]
      by_cases hoe : odd = even
      · rw [if_pos hoe]
      · rw [if_neg hoe, lookupGame_erase_self]
    · rw [hr']
      show lookupGame (eraseGame (eraseGame r.games odd) even) even = none
      rw [lookupGame_erase_self]
  · rfl

/-- Witness for the universally quantified part of claim C2, at the state
holding the two concrete records of `lineDraw1` and `lineWin2` just before
their pairing step. -/
theorem claim_C2_witness :
    ∃ pent pent' tri tri1 tri2,
      (some [0, 0, 0, 0, 0] : Option (List Int)) = some pent ∧
      (some [1, 1, 0] : Option (List Int)) = some tri ∧
      pyAdd pent ((1 : Int) + 2 - 2) 1 = .ok pent' ∧
      pent'.sum = pent.sum + 1 ∧
      pyAdd tri 1 (-1) = .ok tri1 ∧
      pyAdd tri1 (2 - 2) (-1) = .ok tri2 ∧
      tri2.sum = tri.sum - 2 ∧
      (⟨some [0, 1, 0, 0, 0], some [0, 0, 0], []⟩ : Rounds) =
        ⟨some pent', some tri2,
          eraseGame (eraseGame [(1, ⟨"New-abc", "Base-xyz", 1⟩),
            (2, ⟨"Base-xyz", "New-abc", 2⟩)] 1) 2⟩ ∧
      lookupGame (Rounds.games ⟨some [0, 1, 0, 0, 0], some [0, 0, 0], []⟩) 1 = none ∧
      lookupGame (Rounds.games ⟨some [0, 1, 0, 0, 0], some [0, 0, 0], []⟩) 2 = none ∧
      (∃ vi, pyGet tri2 1 = .ok vi ∧ 0 ≤ vi) ∧
      (∃ vj, pyGet tri2 (2 - 2) = .ok vj ∧ 0 ≤ vj) :=
  claim_C2.1
    ⟨some [0, 0, 0, 0, 0], some [1, 1, 0],
      [(1, ⟨"New-abc", "Base-xyz", 1⟩), (2, ⟨"Base-xyz", "New-abc", 2⟩)]⟩
    1 2 ⟨"New-abc", "Base-xyz", 1⟩ ⟨"Base-xyz", "New-abc", 2⟩
    ⟨some [0, 1, 0, 0, 0], some [0, 0, 0], []⟩
    rfl rfl (by decide) (by decide) rfl

/-- Acceptance condition of `validate_pentanomial`, on a state carrying both
lists: the validator succeeds exactly when the game-count identity holds and
the two (half-point-weighted) score computations agree within `1e-4`. -/
theorem validate_pentanomial_ok_iff (w l d : Int) (pent tri : List Int)
    (g : List (Int × RoundRecord)) :
    validate_pentanomial (w, l, d) ⟨some pent, some tri, g⟩ = .ok () ↔
    ([l, d, w].sum = 2 * pent.sum + tri.sum ∧
     pfLt (pfAbs (pfSub (pfAdd (results_to_score pent) (results_to_score tri))
       (results_to_score [l, d, w]))) (pfMk 1 10000)) := by
  constructor
  · intro h
    unfold validate_pentanomial at h
    rw [bindE_ok] at h; obtain ⟨pentv, hpentv, h⟩ := h
    rw [bindE_ok] at h; obtain ⟨triv2, htriv2, h⟩ := h
    have hp : pent = pentv := by
      have := getPent_ok.mp hpentv
      simpa using this
    have ht : tri = triv2 := by
      have := getTri_ok.mp htriv2
      simpa using this
    subst hp; subst ht
    split at h
    · dsimp only at h
      split at h
      · constructor <;> assumption
      · exact absurd h (by simp)
    · exact absurd h (by simp)
  · rintro ⟨h1, h2⟩
    unfold validate_pentanomial
    rw [bindE_ok]
    refine ⟨pent, rfl, ?_⟩
    rw [bindE_ok]
    refine ⟨tri, rfl, ?_⟩
    rw [if_pos h1, if_pos h2]

/-- Claim C3 counterexample: for the state of one completed double-draw pair
(`pentanomial = [0,0,1,0,0]`, `trinomial = [0,0,0]`) with aggregate counts
`(W, L, D) = (0, 0, 2)`, the validator accepts, yet the quarter-point
`score5` formula stated by the specification differs from `score3` by `1/2`,
far beyond `1e-4`: the code weights the pentanomial buckets with `k/2`, not
`k/4`. -/
theorem claim_C3_counterexample :
    validate_pentanomial (0, 0, 2) ⟨some [0, 0, 1, 0, 0], some [0, 0, 0], []⟩ = .ok () ∧
    ¬ pfLt (pfAbs (pfSub (spec_score5 [0, 0, 1, 0, 0] [0, 0, 0])
        (results_to_score [0, 2, 0]))) (pfMk 1 10000) := by
  exact ⟨rfl, by decide⟩

/-- Claim C3 (amended): on every aggregate score event `(W, L, D)` the
validator computes `score3 = Σ LDW[k]*(k/2)` with `LDW = [L, D, W]` and
`score5 = Σ pentanomial[k]*(k/2) + Σ trinomial[k]*(k/2)` — half-point
weights on both lists, not `k/4` on the pentanomial — and acceptance
requires `|score3 - score5| < 1e-4` (as well as the game-count identity
`W+L+D = 2*Σpentanomial + Σtrinomial`). -/
theorem claim_C3 (w l d : Int) (pent tri : List Int) (g : List (Int × RoundRecord))
    (h : validate_pentanomial (w, l, d) ⟨some pent, some tri, g⟩ = .ok ()) :
    pfLt (pfAbs (pfSub (pfAdd (results_to_score pent) (results_to_score tri))
      (results_to_score [l, d, w]))) (pfMk 1 10000) ∧
    [l, d, w].sum = 2 * pent.sum + tri.sum := by
  obtain ⟨h1, h2⟩ := (validate_pentanomial_ok_iff w l d pent tri g).mp h
  exact ⟨h2, h1⟩

/-- Witness for claim C3 (amended) at the single-drawn-pair acceptance
state. -/
theorem claim_C3_witness :
    pfLt (pfAbs (pfSub (pfAdd (results_to_score [0, 0, 0, 0, 0]) (results_to_score [0, 1, 0]))
      (results_to_score [(0 : Int), 1, 0]))) (pfMk 1 10000) ∧
    [(0 : Int), 1, 0].sum = 2 * [(0 : Int), 0, 0, 0, 0].sum + [(0 : Int), 1, 0].sum :=
  claim_C3 0 0 1 [0, 0, 0, 0, 0] [0, 1, 0] [] rfl

/-- Claim C4: the validator accepts `(W,L,D) = (0,0,1)` with
`trinomial = [0,1,0]` and `pentanomial = [0,0,0,0,0]`, and — on a state
carrying both lists — it raises exactly when the two score computations
differ by at least `1e-4` or when `W+L+D` differs from
`2*Σpentanomial + Σtrinomial`.  The validator is a pure check: it never
writes the state, so the state is unchanged on acceptance by construction
(its embedding returns no state). -/
theorem claim_C4 :
    validate_pentanomial (0, 0, 1) ⟨some [0, 0, 0, 0, 0], some [0, 1, 0], []⟩ = .ok () ∧
    (∀ (w l d : Int) (pent tri : List Int) (g : List (Int × RoundRecord)),
      validate_pentanomial (w, l, d) ⟨some pent, some tri, g⟩ = .ok () ↔
      ([l, d, w].sum = 2 * pent.sum + tri.sum ∧
       pfLt (pfAbs (pfSub (pfAdd (results_to_score pent) (results_to_score tri))
         (results_to_score [l, d, w]))) (pfMk 1 10000))) :=
  ⟨rfl, validate_pentanomial_ok_iff⟩

/-- Witness for claim C4: the acceptance direction of the equivalence at a
concrete rejected input (total mismatch) and the accepted one. -/
theorem claim_C4_witness :
    validate_pentanomial (1, 0, 0) ⟨some [0, 0, 0, 0, 0], some [0, 1, 0], []⟩ ≠ .ok () :=
  fun h => by
    have := (claim_C4.2 1 0 0 [0, 0, 0, 0, 0] [0, 1, 0] []).mp h
    exact absurd this.2 (by decide)

/-- Claim C5: for every time-control string that parses and every measured
nps at or above the slow-machine threshold, `adjust_tc` returns a scaled
string of the original shape — the moves prefix (rendered from the parsed
count) when a positive moves count is present, the scaled base time, and a
`+increment` suffix when a positive increment is present — and a `tcLimit`
equal to `scaledTime*3`, plus `scaledIncrement*200` when an increment is
present, multiplied by `100/movesCount` when a moves count is present, with
`factor = 1600000/measuredNps`; in particular
`adjust_tc "10+0.1" 1600000` yields `"10.000+0.100"` with `tcLimit = 50`. -/
theorem claim_C5 :
    (∀ (tc : String) (nps : PyFloat) (conc : Int) (s : String) (lim : PyFloat),
      adjust_tc tc nps conc = .ok (s, lim) →
      ∃ inc mvs t,
        tcComponents tc = .ok (inc, mvs, t) ∧
        s = (if 0 < mvs then intToStr mvs ++ "/" else "") ++
            fmt3 (pfMul t (pfDiv (pfOfInt 1600000) nps)) ++
            (if pfLt (pfOfInt 0) inc then
              "+" ++ fmt3 (pfMul inc (pfDiv (pfOfInt 1600000) nps)) else "") ∧
        pfEq lim (pfMul
          (pfAdd (pfMul (pfMul t (pfDiv (pfOfInt 1600000) nps)) (pfOfInt 3))
            (if pfLt (pfOfInt 0) inc then
              pfMul (pfMul inc (pfDiv (pfOfInt 1600000) nps)) (pfOfInt 200)
             else pfOfInt 0))
          (if 0 < mvs then pfDiv (pfOfInt 100) (pfOfInt mvs) else pfOfInt 1))) ∧
    (∃ lim50, adjust_tc "10+0.1" (pfOfInt 1600000) 1 = .ok ("10.000+0.100", lim50) ∧
      pfEq lim50 (pfOfInt 50)) := by
  constructor
  · intro tc nps conc s lim h
    unfold adjust_tc at h
    split at h
    · exact absurd h (by simp)
    split at h
    · exact absurd h (by simp)
    rw [bindE_ok] at h
    obtain ⟨⟨inc, mvs, t⟩, hc, h⟩ := h
    rw [pureE_ok] at h
    refine ⟨inc, mvs, t, hc, ?_⟩
    unfold scaleTc at h
    dsimp only at h
    by_cases hinc : pfLt (pfOfInt 0) inc
    · by_cases hmvs : 0 < mvs
      · rw [if_pos hinc, if_pos hmvs] at h
        injection h with hs hlim
        subst hs; subst hlim
        constructor
        · simp only [if_pos hinc, if_pos hmvs, strAppend_assoc]
        · simp only [if_pos hinc, if_pos hmvs]
          simp only [pfEq, pfMul, pfAdd, pfOfInt]
      · rw [if_pos hinc, if_neg hmvs] at h
        injection h with hs hlim
        subst hs; subst hlim
        constructor
        · simp only [if_pos hinc, if_neg hmvs, strAppend_assoc, empty_strAppend]
        · simp only [if_pos hinc, if_neg hmvs]
          simp only [pfEq, pfMul, pfAdd, pfOfInt]
          ring
    · by_cases hmvs : 0 < mvs
      · rw [if_neg hinc, if_pos hmvs] at h
        injection h with hs hlim
        subst hs; subst hlim
        constructor
        · simp only [if_neg hinc, if_pos hmvs, strAppend_assoc, strAppend_empty]
        · simp only [if_neg hinc, if_pos hmvs]
          simp only [pfEq, pfMul, pfAdd, pfOfInt]
          ring
      · rw [if_neg hinc, if_neg hmvs] at h
        injection h with hs hlim
        subst hs; subst hlim
        constructor
        · simp only [if_neg hinc, if_neg hmvs, strAppend_assoc, strAppend_empty,
            empty_strAppend]
        · simp only [if_neg hinc, if_neg hmvs]
          simp only [pfEq, pfMul, pfAdd, pfOfInt]
          ring
  · exact ⟨_, rfl, by decide⟩

/-- Witness for the universally quantified part of claim C5 at the concrete
input `"40/5:00+0.05"` with nps `3200000` (factor one half): the returned
string keeps the `40/` moves prefix and the limit satisfies the composed
formula. -/
theorem claim_C5_witness :
    ∃ inc mvs t,
      tcComponents "40/5:00+0.05" = .ok (inc, mvs, t) ∧
      "40/150.000+0.025" = (if 0 < mvs then intToStr mvs ++ "/" else "") ++
          fmt3 (pfMul t (pfDiv (pfOfInt 1600000) (pfOfInt 3200000))) ++
          (if pfLt (pfOfInt 0) inc then
            "+" ++ fmt3 (pfMul inc (pfDiv (pfOfInt 1600000) (pfOfInt 3200000))) else "") ∧
      pfEq ⟨46592000000000000000, 40960000000000000⟩ (pfMul
        (pfAdd (pfMul (pfMul t (pfDiv (pfOfInt 1600000) (pfOfInt 3200000))) (pfOfInt 3))
          (if pfLt (pfOfInt 0) inc then
            pfMul (pfMul inc (pfDiv (pfOfInt 1600000) (pfOfInt 3200000))) (pfOfInt 200)
           else pfOfInt 0))
        (if 0 < mvs then pfDiv (pfOfInt 100) (pfOfInt mvs) else pfOfInt 1)) :=
  claim_C5.1 "40/5:00+0.05" (pfOfInt 3200000) 1 "40/150.000+0.025"
    ⟨46592000000000000000, 40960000000000000⟩ rfl

/-- Claim C6: for every time-control string and every measured nps strictly
below 700000, `adjust_tc` never returns a value; for every nonzero such nps
it terminates the worker via `sys.exit(1)` (the `SystemExit` error), with no
retry.  At nps exactly zero the preceding float division
`1600000.0 / base_nps` raises `ZeroDivisionError` instead, which also
prevents any value from being returned. -/
theorem claim_C6 (tc : String) (conc : Int) (nps : PyFloat)
    (h : pfLt nps (pfOfInt 700000)) :
    (∀ v, adjust_tc tc nps conc ≠ .ok v) ∧
    (¬ pfEq nps (pfOfInt 0) → adjust_tc tc nps conc = .error "SystemExit") := by
  constructor
  · intro v hv
    unfold adjust_tc at hv
    by_cases h0 : pfEq nps (pfOfInt 0)
    · rw [if_pos h0] at hv
      exact absurd hv (by simp)
    · rw [if_neg h0, if_pos h] at hv
      exact absurd hv (by simp)
  · intro h0
    unfold adjust_tc
    rw [if_neg h0, if_pos h]

/-- Witness for claim C6 at nps `650000`. -/
theorem claim_C6_witness :
    adjust_tc "10+0.1" (pfOfInt 650000) 1 = .error "SystemExit" :=
  (claim_C6 "10+0.1" 1 (pfOfInt 650000) (by decide)).2 (by decide)

theorem attemptUpdates_exhausted (net : Nat → NetResponse) (c : Nat)
    (h : ∀ m, m < 5 → net (c + m) = .err) :
    attemptUpdates net 5 c = (c + 5, .exhausted) := by
  have h0 : net c = .err := by simpa using h 0 (by omega)
  have h1 : net (c + 1) = .err := h 1 (by omega)
  have h2 : net (c + 1 + 1) = .err := by
    have := h 2 (by omega)
    rwa [show c + 2 = c + 1 + 1 from by omega] at this
  have h3 : net (c + 1 + 1 + 1) = .err := by
    have := h 3 (by omega)
    rwa [show c + 3 = c + 1 + 1 + 1 from by omega] at this
  have h4 : net (c + 1 + 1 + 1 + 1) = .err := by
    have := h 4 (by omega)
    rwa [show c + 4 = c + 1 + 1 + 1 + 1 from by omega] at this
  simp [attemptUpdates, h0, h1, h2, h3, h4]

theorem attemptUpdates_cancelled_aux (net : Nat → NetResponse) :
    ∀ (n k c : Nat), k < n → (∀ m, m < k → net (c + m) = .err) →
    net (c + k) = .ok false →
    attemptUpdates net n c = (c + k + 1, .cancelled) := by
  intro n
  induction n with
  | zero => intro k c hk _ _; exact absurd hk (by omega)
  | succ n ih =>
    intro k c hk hpre hresp
    cases k with
    | zero =>
      have h0 : net c = .ok false := by simpa using hresp
      simp [attemptUpdates, h0]
    | succ k' =>
      have h0 : net c = .err := by simpa using hpre 0 (by omega)
      have step : attemptUpdates net (n + 1) c = attemptUpdates net n (c + 1) := by
        simp [attemptUpdates, h0]
      have hpre' : ∀ m, m < k' → net (c + 1 + m) = .err := by
        intro m hm
        have := hpre (m + 1) (by omega)
        rwa [show c + (m + 1) = c + 1 + m from by omega] at this
      have hresp' : net (c + 1 + k') = .ok false := by
        rwa [show c + (k' + 1) = c + 1 + k' from by omega] at hresp
      rw [step, ih k' (c + 1) (by omega) hpre' hresp',
        show c + 1 + k' + 1 = c + (k' + 1) + 1 from by omega]

theorem run_game_lines_ret {tuning : Bool} {old : Stats} {net : Nat → NetResponse}
    {st : RGState} {line : String} {rest : List String} {st' : RGState} {ts : TaskStatus}
    (h : processLine tuning old net st line = .ok (.ret st' ts)) :
    run_game_lines tuning old net (line :: rest) st = .ok (st', ts) := by
  unfold run_game_lines
  rw [h]
  rfl

theorem run_game_lines_brk {tuning : Bool} {old : Stats} {net : Nat → NetResponse}
    {st : RGState} {line : String} {rest : List String} {st' : RGState}
    (h : processLine tuning old net st line = .ok (.brk st')) :
    run_game_lines tuning old net (line :: rest) st =
      .ok ({ st' with killed := true }, ⟨true⟩) := by
  unfold run_game_lines
  rw [h]
  rfl

theorem contFinish_out {old : Stats} {line : String} {st : RGState} {x : LineOut}
    (h : contFinish old line st = .ok x) : ∃ s, x = .cont s := by
  unfold contFinish at h
  rw [bindE_ok] at h
  obtain ⟨p, -, h⟩ := h
  simp only [Except.ok.injEq] at h
  exact ⟨_, h.symm⟩

theorem scoreStats_calls {tuning : Bool} {old : Stats} {st : RGState}
    {wld : Int × Int × Int} {st2 : RGState}
    (h : scoreStats tuning old st wld = .ok st2) : st2.calls = st.calls ∧
    st2.pairs_updated = st.pairs_updated ∧ st2.rounds = st.rounds := by
  unfold scoreStats at h
  split at h
  · rw [bindE_ok] at h; obtain ⟨tri, -, h⟩ := h
    rw [bindE_ok] at h; obtain ⟨t2, -, h⟩ := h
    rw [bindE_ok] at h; obtain ⟨t0, -, h⟩ := h
    rw [bindE_ok] at h; obtain ⟨t1, -, h⟩ := h
    rw [pureE_ok] at h
    subst h
    exact ⟨rfl, rfl, rfl⟩
  · rw [pureE_ok] at h
    subst h
    exact ⟨rfl, rfl, rfl⟩

theorem scoreStep_ret {tuning : Bool} {old : Stats} {net : Nat → NetResponse}
    {st : RGState} {line : String} {st' : RGState} {ts : TaskStatus}
    (h : scoreStep tuning old net st line = .ok (.ret st' ts)) :
    ts = ⟨false⟩ ∧ st'.killed = true ∧
    attemptUpdates net 5 st.calls = (st'.calls, .cancelled) := by
  unfold scoreStep at h
  rw [bindE_ok] at h; obtain ⟨wld, -, h⟩ := h
  rw [bindE_ok] at h; obtain ⟨u, -, h⟩ := h
  rw [bindE_ok] at h; obtain ⟨st2, hstats, h⟩ := h
  rw [bindE_ok] at h; obtain ⟨pent, -, h⟩ := h
  obtain ⟨hcalls, -, -⟩ := scoreStats_calls hstats
  split at h
  · cases hA : attemptUpdates net 5 st2.calls with
    | mk calls outc =>
      rw [hA] at h
      cases outc with
      | cancelled =>
        simp only [Except.ok.injEq, LineOut.ret.injEq] at h
        obtain ⟨hst, hts⟩ := h
        subst hst
        refine ⟨hts.symm, rfl, ?_⟩
        rw [← hcalls, hA]
      | exhausted => simp at h
      | success => simp at h
  · simp at h

theorem scoreStep_brk {tuning : Bool} {old : Stats} {net : Nat → NetResponse}
    {st : RGState} {line : String} {st' : RGState}
    (h : scoreStep tuning old net st line = .ok (.brk st')) :
    st'.killed = true ∧
    attemptUpdates net 5 st.calls = (st'.calls, .exhausted) := by
  unfold scoreStep at h
  rw [bindE_ok] at h; obtain ⟨wld, -, h⟩ := h
  rw [bindE_ok] at h; obtain ⟨u, -, h⟩ := h
  rw [bindE_ok] at h; obtain ⟨st2, hstats, h⟩ := h
  rw [bindE_ok] at h; obtain ⟨pent, -, h⟩ := h
  obtain ⟨hcalls, -, -⟩ := scoreStats_calls hstats
  split at h
  · cases hA : attemptUpdates net 5 st2.calls with
    | mk calls outc =>
      rw [hA] at h
      cases outc with
      | cancelled => simp at h
      | exhausted =>
        simp only [Except.ok.injEq, LineOut.brk.injEq] at h
        subst h
        refine ⟨rfl, ?_⟩
        rw [← hcalls, hA]
      | success => simp at h
  · simp at h

theorem run_game_lines_cont {tuning : Bool} {old : Stats} {net : Nat → NetResponse}
    {st : RGState} {line : String} {rest : List String} {st' : RGState}
    (h : processLine tuning old net st line = .ok (.cont st')) :
    run_game_lines tuning old net (line :: rest) st =
      run_game_lines tuning old net rest st' := by
  have hdef : run_game_lines tuning old net (line :: rest) st =
      processLine tuning old net st line >>= fun out =>
        match out with
        | .cont s => run_game_lines tuning old net rest s
        | .brk s => .ok ({ s with killed := true }, ⟨true⟩)
        | .ret s ts => .ok (s, ts) := rfl
  rw [hdef, h]
  rfl

theorem processLine_ret_false {tuning : Bool} {old : Stats} {net : Nat → NetResponse}
    {st : RGState} {line : String} {st' : RGState}
    (h : processLine tuning old net st line = .ok (.ret st' ⟨false⟩)) :
    st'.killed = true ∧
    attemptUpdates net 5 st.calls = (st'.calls, .cancelled) := by
  unfold processLine at h
  split at h
  · simp only [Except.ok.injEq, LineOut.ret.injEq, TaskStatus.mk.injEq] at h
    exact absurd h.2 (by simp)
  · rw [bindE_ok] at h
    obtain ⟨out, hout, hmatch⟩ := h
    cases out with
    | cont s =>
      obtain ⟨s2, hs2⟩ := contFinish_out hmatch
      exact absurd hs2 (by simp)
    | brk s => simp at hmatch
    | ret s ts =>
      simp only [Except.ok.injEq, LineOut.ret.injEq] at hmatch
      obtain ⟨hs, hts⟩ := hmatch
      subst hs; subst hts
      split at hout
      · obtain ⟨-, hkill, hatt⟩ := scoreStep_ret hout
        refine ⟨hkill, ?_⟩
        rw [← hatt]
        congr 1
        by_cases hc1 : containsStr "disconnects" line || containsStr "connection stalls" line <;>
          by_cases hc2 : containsStr "on time" line <;>
          simp [hc1, hc2]
      · rw [pureE_ok] at hout
        exact absurd hout (by simp)

theorem processLine_brk {tuning : Bool} {old : Stats} {net : Nat → NetResponse}
    {st : RGState} {line : String} {st' : RGState}
    (h : processLine tuning old net st line = .ok (.brk st')) :
    st'.killed = true ∧
    attemptUpdates net 5 st.calls = (st'.calls, .exhausted) := by
  unfold processLine at h
  split at h
  · simp at h
  · rw [bindE_ok] at h
    obtain ⟨out, hout, hmatch⟩ := h
    cases out with
    | cont s =>
      obtain ⟨s2, hs2⟩ := contFinish_out hmatch
      exact absurd hs2 (by simp)
    | ret s ts => simp at hmatch
    | brk s =>
      simp only [Except.ok.injEq, LineOut.brk.injEq] at hmatch
      subst hmatch
      split at hout
      · obtain ⟨hkill, hatt⟩ := scoreStep_brk hout
        refine ⟨hkill, ?_⟩
        rw [← hatt]
        congr 1
        by_cases hc1 : containsStr "disconnects" line || containsStr "connection stalls" line <;>
          by_cases hc2 : containsStr "on time" line <;>
          simp [hc1, hc2]
      · rw [pureE_ok] at hout
        exact absurd hout (by simp)

theorem run_games_loop_cancel (batch : Nat → TaskStatus × Stats) (gtp : Int)
    (fuel : Nat) (s : OrchState) (stats : Stats)
    (hgr : 0 < s.games_remaining) (hb : batch 0 = (⟨false⟩, stats)) :
    run_games_loop batch gtp (fuel + 1) 0 s = (s, 1) := by
  unfold run_games_loop
  rw [if_neg (by omega), hb]
  rfl

theorem run_games_loop_advance (batch : Nat → TaskStatus × Stats) (gtp : Int)
    (fuel : Nat) (i : Nat) (s : OrchState) (stats : Stats)
    (hgr : 0 < s.games_remaining) (hb : batch i = (⟨true⟩, stats)) :
    run_games_loop batch gtp (fuel + 1) i s =
      run_games_loop batch gtp fuel (i + 1) ⟨stats, s.games_remaining - gtp⟩ := by
  have hdef : run_games_loop batch gtp (fuel + 1) i s =
      (if s.games_remaining ≤ 0 then (s, i)
       else
         let p := batch i
         if !p.1.task_alive then (s, i + 1)
         else run_games_loop batch gtp fuel (i + 1)
           ⟨p.2, s.games_remaining - gtp⟩) := rfl
  rw [hdef, if_neg (by omega), hb]
  rfl

/-- Claim C7 counterexample: with every one of the 5 `update_task` attempts
failing with a network error while processing the aggregate-score line of a
finished pair, `run_game` kills the process and returns
`{'task_alive': True}` after 5 calls, whereupon the orchestrator loop does
NOT keep `games_remaining` and `old_stats` unchanged: it advances the
baseline to the batch's result stats and decrements `games_remaining` by the
batch size (from `(zeroStats, 2)` to the batch stats with wins 2 and
remaining 0). -/
theorem claim_C7_counterexample :
    run_game false zeroStats (fun _ => .err) [lineWin1, lineLoss2, lineScore2] =
      .ok (⟨⟨some [0, 0, 0, 0, 1], some [0, 0, 0], []⟩,
        ⟨2, 0, 0, 0, 0, [0, 0, 0, 0, 1]⟩, 0, 5, true⟩, ⟨true⟩) ∧
    run_games_loop (fun _ => (⟨true⟩, ⟨2, 0, 0, 0, 0, [0, 0, 0, 0, 1]⟩)) 2 2 0
      ⟨zeroStats, 2⟩ = (⟨⟨2, 0, 0, 0, 0, [0, 0, 0, 0, 1]⟩, 0⟩, 1) ∧
    (⟨⟨2, 0, 0, 0, 0, [0, 0, 0, 0, 1]⟩, 0⟩ : OrchState) ≠ ⟨zeroStats, 2⟩ :=
  ⟨rfl, rfl, by decide⟩

/-- Claim C7 (amended): if every one of the 5 `update_task` attempts for a
report fails with a network error, the batch ends with the match process
terminated and the worker itself does not abort — `run_game` returns
`{'task_alive': True}` without processing further lines — and control
returns to the orchestrator loop, which then treats the batch as completed:
it advances `old_stats` to the batch's result stats and decrements
`games_remaining` by the batch size (the unreported games are credited
locally, not left pending). -/
theorem claim_C7 :
    (∀ (net : Nat → NetResponse) (c : Nat), (∀ m, m < 5 → net (c + m) = .err) →
      attemptUpdates net 5 c = (c + 5, .exhausted)) ∧
    (∀ (tuning : Bool) (old : Stats) (net : Nat → NetResponse) (st : RGState)
        (line : String) (st' : RGState),
      processLine tuning old net st line = .ok (.brk st') →
      st'.killed = true ∧ attemptUpdates net 5 st.calls = (st'.calls, .exhausted)) ∧
    (∀ (tuning : Bool) (old : Stats) (net : Nat → NetResponse) (st : RGState)
        (line : String) (rest : List String) (st' : RGState),
      processLine tuning old net st line = .ok (.brk st') →
      run_game_lines tuning old net (line :: rest) st =
        .ok ({ st' with killed := true }, ⟨true⟩)) ∧
    (∀ (batch : Nat → TaskStatus × Stats) (gtp : Int) (fuel i : Nat) (s : OrchState)
        (stats : Stats), 0 < s.games_remaining → batch i = (⟨true⟩, stats) →
      run_games_loop batch gtp (fuel + 1) i s =
        run_games_loop batch gtp fuel (i + 1) ⟨stats, s.games_remaining - gtp⟩) :=
  ⟨attemptUpdates_exhausted,
   fun _ _ _ _ _ _ h => processLine_brk h,
   fun _ _ _ _ _ _ _ h => run_game_lines_brk h,
   fun batch gtp fuel i s stats hgr hb =>
     run_games_loop_advance batch gtp fuel i s stats hgr hb⟩

/-- Witness for claim C7 at a fully failing network oracle and an alive
batch outcome. -/
theorem claim_C7_witness :
    attemptUpdates (fun _ => .err) 5 0 = (5, .exhausted) ∧
    run_games_loop (fun _ => (⟨true⟩, zeroStats)) 2 1 0 ⟨zeroStats, 2⟩ =
      run_games_loop (fun _ => (⟨true⟩, zeroStats)) 2 0 1 ⟨zeroStats, 0⟩ :=
  ⟨claim_C7.1 (fun _ => .err) 0 (fun _ _ => rfl),
   claim_C7.2.2.2 (fun _ => (⟨true⟩, zeroStats)) 2 0 0 ⟨zeroStats, 2⟩ zeroStats
     (by decide) rfl⟩

/-- Claim C8: a coordinator response with `task_alive = false` on any of the
5 attempts ends the attempt loop right there (exactly `k+1` calls are made,
none after), kills the match process within the same line-processing step,
makes `run_game` return that response as the batch result without touching
the remaining lines, and stops the orchestrator loop with its state
unchanged (no further batches are started); concretely, with the
cancellation arriving on the first attempt, a four-line batch ends after the
score line with one call made, the process killed and `task_alive = false`
returned. -/
theorem claim_C8 :
    (∀ (net : Nat → NetResponse) (c k : Nat), k < 5 →
      (∀ m, m < k → net (c + m) = .err) → net (c + k) = .ok false →
      attemptUpdates net 5 c = (c + k + 1, .cancelled)) ∧
    (∀ (tuning : Bool) (old : Stats) (net : Nat → NetResponse) (st : RGState)
        (line : String) (st' : RGState),
      processLine tuning old net st line = .ok (.ret st' ⟨false⟩) →
      st'.killed = true ∧ attemptUpdates net 5 st.calls = (st'.calls, .cancelled)) ∧
    (∀ (tuning : Bool) (old : Stats) (net : Nat → NetResponse) (st : RGState)
        (line : String) (rest : List String) (st' : RGState),
      processLine tuning old net st line = .ok (.ret st' ⟨false⟩) →
      run_game_lines tuning old net (line :: rest) st = .ok (st', ⟨false⟩)) ∧
    (∀ (batch : Nat → TaskStatus × Stats) (gtp : Int) (fuel : Nat) (s : OrchState)
        (stats : Stats), 0 < s.games_remaining → batch 0 = (⟨false⟩, stats) →
      run_games_loop batch gtp (fuel + 1) 0 s = (s, 1)) ∧
    run_game false zeroStats (fun _ => .ok false)
        [lineWin1, lineLoss2, lineScore2, lineWin1] =
      .ok (⟨⟨some [0, 0, 0, 0, 1], some [0, 0, 0], []⟩,
        ⟨2, 0, 0, 0, 0, [0, 0, 0, 0, 1]⟩, 0, 1, true⟩, ⟨false⟩) :=
  ⟨fun net c k hk => attemptUpdates_cancelled_aux net 5 k c hk,
   fun _ _ _ _ _ _ h => processLine_ret_false h,
   fun _ _ _ _ _ _ _ h => run_game_lines_ret h,
   fun batch gtp fuel s stats hgr hb =>
     run_games_loop_cancel batch gtp fuel s stats hgr hb,
   rfl⟩

/-- Witness for claim C8: cancellation on the third attempt after two
network errors makes exactly three calls. -/
theorem claim_C8_witness :
    attemptUpdates (fun i => if i < 2 then .err else .ok false) 5 0 =
      (3, .cancelled) :=
  claim_C8.1 (fun i => if i < 2 then .err else .ok false) 0 2 (by omega)
    (fun m hm => by simp [hm]) (by decide)

/-- Claim C9 counterexample: when the benchmark process exits non-zero (here
with code 1 and a correct signature in the stream), `verify_signature`
raises without posting any message to the coordinator's stop endpoint — the
stop notification happens only on a signature mismatch, not on a non-zero
exit. -/
theorem claim_C9_counterexample :
    (verify_signature "stockfish_abc" 100
      ["Nodes searched  : 100", "Nodes/second    : 1500000"] 1 2).stop_posted = none ∧
    (verify_signature "stockfish_abc" 100
      ["Nodes searched  : 100", "Nodes/second    : 1500000"] 1 2).outcome =
      .error "Exception: Bench exited with non-zero code" :=
  ⟨rfl, rfl⟩

/-- Claim C9 (amended): `verify_signature` raises on a non-zero benchmark
exit without posting to the stop endpoint; on a parsed signature different
from the expected one it posts the descriptive failure message to the
coordinator's stop endpoint and raises with the same message; on success it
returns the measured nodes/second; and the auxiliary busy engine instance is
spawned exactly when `concurrency > 1` and is torn down in every one of
these cases (the `finally` of the source). -/
theorem claim_C9 (engine : String) (signature : Int) (lines : List String)
    (returncode concurrency : Int) :
    ((verify_signature engine signature lines returncode concurrency).busy_spawned =
        decide (concurrency > 1) ∧
     (verify_signature engine signature lines returncode concurrency).busy_torn_down =
        (verify_signature engine signature lines returncode concurrency).busy_spawned) ∧
    (returncode ≠ 0 → ∀ bs np, scanBenchLines lines "" none = .ok (bs, np) →
      (verify_signature engine signature lines returncode concurrency).stop_posted = none ∧
      (verify_signature engine signature lines returncode concurrency).outcome =
        .error "Exception: Bench exited with non-zero code") ∧
    (returncode = 0 → ∀ bs np sigv, scanBenchLines lines "" none = .ok (bs, np) →
      parseInt bs = .ok sigv → sigv ≠ signature →
      (verify_signature engine signature lines returncode concurrency).stop_posted =
        some ("Wrong bench in " ++ engine) ∧
      (verify_signature engine signature lines returncode concurrency).outcome =
        .error ("Wrong bench in " ++ engine)) ∧
    (returncode = 0 → ∀ bs v sigv, scanBenchLines lines "" none = .ok (bs, some v) →
      parseInt bs = .ok sigv → sigv = signature →
      (verify_signature engine signature lines returncode concurrency).stop_posted = none ∧
      (verify_signature engine signature lines returncode concurrency).outcome = .ok v) := by
  refine ⟨⟨rfl, rfl⟩, ?_, ?_, ?_⟩
  · intro hrc bs np hscan
    constructor <;> simp [verify_signature, hscan, hrc]
  · intro hrc bs np sigv hscan hparse hne
    constructor <;> simp [verify_signature, hscan, hrc, hparse, hne]
  · intro hrc bs v sigv hscan hparse heq
    subst heq
    constructor <;> simp [verify_signature, hscan, hrc, hparse]

/-- Witness for claim C9 at a concrete mismatching benchmark run. -/
theorem claim_C9_witness :
    (verify_signature "stockfish_abc" 100
      ["Nodes searched  : 99", "Nodes/second    : 1500000"] 0 2).stop_posted =
      some ("Wrong bench in " ++ "stockfish_abc") ∧
    (verify_signature "stockfish_abc" 100
      ["Nodes searched  : 99", "Nodes/second    : 1500000"] 0 2).outcome =
      .error ("Wrong bench in " ++ "stockfish_abc") :=
  (claim_C9 "stockfish_abc" 100 ["Nodes searched  : 99", "Nodes/second    : 1500000"] 0 2).2.2.1
    rfl "99" (some ⟨1500000, 1⟩) 99 rfl rfl (by decide)

/-- Claim C10: a batch whose first processed line is an aggregate
`Score of ...` line, before any `Finished game` line, makes `run_game` raise
a `KeyError`: `validate_pentanomial` reads `rounds['pentanomial']` (and then
`rounds['trinomial']`), which are only seeded by `update_pentanomial`, and
`update_pentanomial` runs after the score handling; the exception aborts the
batch and `launch_cutechess` turns it into `{'task_alive': False}`.  The
last conjunct shows that `update_pentanomial` on that very line would have
seeded the key. -/
theorem claim_C10 :
    run_game false zeroStats (fun _ => .err) [lineScore1] = .error "KeyError: pentanomial" ∧
    launch_cutechess_status (run_game false zeroStats (fun _ => .err) [lineScore1]) =
      ⟨false⟩ ∧
    emptyRounds.pentanomial = none ∧
    (update_pentanomial (List.replicate 5 0) lineScore1 emptyRounds).map
      (fun p => p.1.pentanomial) = .ok (some (List.replicate 5 0)) :=
  ⟨rfl, rfl, rfl, rfl⟩
